import Mathlib

/-!
Verification of the go-concert synchronization core.

This file gives a shallow embedding of the synchronization primitives of the
repository (the channel-based `Mutex`, the intrusive FIFO `Waitlist`, and the
keyed, reference-counted `LockManager` with its `ManagedLock` handles and
`LockSession`s) and proves or refutes the specified properties about them.

Conventions of the embedding:
* the capacity-one Go channel inside `Mutex` is a single boolean slot
  (`true` = a token is buffered = unlocked; `false` = empty = locked);
* goroutine interleavings are modelled by a small-step transition system whose
  atomic steps are exactly the atomic actions of the source (channel
  operations, critical sections guarded by an internal `sync.Mutex`, and
  `atomic.Bool` accesses);
* Go panics are modelled as explicit `fatal`/`error` results;
* nondeterministic `select` races are resolved by an explicit environment.
-/

namespace GoConcert

/-! ## Mutex (src/unnamed/part_008)

`Mutex` is a struct holding `ch chan struct{}` of capacity one; `MakeMutex`
buffers one token. A receive (`<-c.ch`) acquires, a send (`c.ch <-`)
releases. The state is the buffer content: `true` iff a token is buffered. -/

/-- Result of the channel send performed by `Mutex.Unlock`: the send either
completes, leaving the given buffer state, or the capacity-one buffer is
already full and the send blocks. A send never panics. -/
inductive SendResult where
  | returns (tokenAfter : Bool)
  | blocks
deriving DecidableEq

/-- `Mutex.Unlock` is `c.ch <- struct{}{}`: put the token back into the
single slot. If the slot is empty (the mutex is held) the send completes;
if the slot already holds the token (the mutex is not held) the send blocks.
The source performs no misuse check. -/
def Mutex.unlock (token : Bool) : SendResult :=
  if token then .blocks else .returns true

/-- `Mutex.TryLock`: a `select` with a `default` branch around the receive.
Returns the pair (acquired, buffer state afterwards). -/
def Mutex.tryLock (token : Bool) : Bool × Bool :=
  if token then (true, false) else (false, token)

/-- Resolution of the nondeterministic races inside a blocking or timed
acquire: whether a token is sent to the buffer before the timer fires,
whether one is available at the very moment the timer fires (the
unlock-versus-expiry race), and whether a plain blocking receive would ever
obtain a token. -/
structure RaceEnv where
  tokenBeforeTimer : Bool
  tokenAtTimeout : Bool
  tokenEventually : Bool
deriving DecidableEq

/-- Observable outcome of an acquire call: it returned reporting success, it
returned reporting failure, or it never returns. -/
inductive AcquireOutcome where
  | acquired
  | notAcquired
  | blocked
deriving DecidableEq

/-- `Mutex.Lock` is a bare blocking receive `<-c.ch`: it returns as soon as a
token is buffered now or becomes buffered later, and otherwise never
returns. -/
def Mutex.lock (token : Bool) (env : RaceEnv) : AcquireOutcome :=
  if token || env.tokenEventually then .acquired else .blocked

/-- `Mutex.LockTimeout` (src/unnamed/part_008, lines 41-63). Duration zero
delegates to `TryLock`; a negative duration delegates to the blocking `Lock`
and reports `true`; a positive duration `select`s the receive against a
timer, and when the timer fires first it makes one final non-blocking
receive attempt before reporting failure. -/
def Mutex.lockTimeout (token : Bool) (duration : Int) (env : RaceEnv) :
    AcquireOutcome :=
  if duration = 0 then
    if (Mutex.tryLock token).1 then .acquired else .notAcquired
  else if duration < 0 then
    Mutex.lock token env
  else
    if token || env.tokenBeforeTimer then .acquired
    else if env.tokenAtTimeout then .acquired
    else .notAcquired

/-- Claim C7: for a mutex created by `MakeMutex`, `LockTimeout 0` behaves
exactly as `TryLock` (it never blocks and reports whether the token was
taken); a negative duration behaves as the unconditional blocking `Lock` and
never reports failure, and on an unheld mutex reports success; a positive
duration whose timer fires before any token arrives performs one final
non-blocking attempt, succeeding exactly when the token became available at
that moment; zero duration on a held mutex reports failure without
blocking. -/
theorem c7_lockTimeout_boundary (token : Bool) (d : Int) (env : RaceEnv) :
    ((Mutex.lockTimeout token 0 env = .acquired ↔ (Mutex.tryLock token).1 = true)
      ∧ Mutex.lockTimeout token 0 env ≠ .blocked)
    ∧ (d < 0 → Mutex.lockTimeout token d env ≠ .notAcquired)
    ∧ (d < 0 → Mutex.lockTimeout true d env = .acquired)
    ∧ (0 < d → env.tokenBeforeTimer = false →
        Mutex.lockTimeout false d env =
          (if env.tokenAtTimeout then .acquired else .notAcquired))
    ∧ Mutex.lockTimeout false 0 env = .notAcquired := by
  refine ⟨⟨?_, ?_⟩, ?_, ?_, ?_, ?_⟩
  · cases token <;> simp [Mutex.lockTimeout, Mutex.tryLock]
  · cases token <;> simp [Mutex.lockTimeout, Mutex.tryLock]
  · intro hd
    have h0 : d ≠ 0 := by omega
    cases token
    · simp only [Mutex.lockTimeout, Mutex.lock, h0, hd, if_false, if_true,
        Bool.false_or, reduceIte]
      cases env.tokenEventually <;> simp
    · simp [Mutex.lockTimeout, Mutex.lock, h0, hd]
  · intro hd
    have h0 : d ≠ 0 := by omega
    simp [Mutex.lockTimeout, Mutex.lock, h0, hd]
  · intro hd hbt
    have h0 : d ≠ 0 := by omega
    have hneg : ¬d < 0 := by omega
    simp [Mutex.lockTimeout, h0, hneg, hbt]
  · simp [Mutex.lockTimeout, Mutex.tryLock]

/-- Witness for C7 at concrete inputs: a negative-duration acquire on an
unheld mutex succeeds, and a zero-duration acquire on a held mutex fails. -/
theorem c7_lockTimeout_boundary_witness :
    Mutex.lockTimeout true (-1) ⟨false, false, false⟩ = .acquired
    ∧ Mutex.lockTimeout false 0 ⟨false, false, false⟩ = .notAcquired := by
  refine ⟨?_, ?_⟩
  · exact (c7_lockTimeout_boundary true (-1) ⟨false, false, false⟩).2.2.1 (by decide)
  · exact (c7_lockTimeout_boundary false 0 ⟨false, false, false⟩).2.2.2.2

/-- Claim C8 (code bug): `Mutex.Unlock` on a mutex that is not held performs
a send into the already-full single-slot buffer. The send blocks; it does
not fail fatally, contradicting the claim and the repository's own test
("unlock on unlocked panics" in mutex_test.go). On a held mutex the send
completes and restores the token. -/
theorem c8_unlock_not_held_blocks :
    Mutex.unlock true = .blocks ∧ Mutex.unlock false = .returns true :=
  ⟨rfl, rfl⟩

/-! ## Waitlist (src/unison/waitlist.go)

A `Waitlist` owns a circular doubly-linked list of `Waiter` nodes. The
embedding identifies waiters with indices into a growing array `waiters`
(one cell per node ever enqueued) and represents the linked structure by
`order`, the list of indices reachable from `head` in `next` direction —
head first, tail last. `Enqueue` appends at the tail; `notifyNext` unlinks
the head; `cancelActive` unlinks an interior node; `Broadcast` walks the
list but, in this source, never resets `head`/`tail` (it only severs
`tail.next`), so `order` is left in place. The one-shot `ready` channel is
the flag `readyClosed`, and the optional on-cancel callback is modelled by
`hasOnCancel` together with the invocation counter `onCancelRuns`. Panics
(`panic("non active waiter in list")`) are `Except.error` results. -/

/-- States of a waiter, mirroring `waiterState` in waitlist.go. -/
inductive WaiterStatus where
  | active
  | notified
  | broadcasted
  | cancelled
  | inactive
deriving DecidableEq

/-- One `Waiter` node: its state machine status, the `propagateCancel` flag
and presence of the `onCancel` callback given at `Enqueue`, whether its
one-shot `ready` channel has been closed, and how many times the `onCancel`
callback has run. -/
structure Waiter where
  status : WaiterStatus
  propagateCancel : Bool
  hasOnCancel : Bool
  readyClosed : Bool
  onCancelRuns : Nat
deriving DecidableEq

/-- A `Waitlist`: `order` is the linked list (head first), `waiters` the
backing store of every node ever enqueued. -/
structure Waitlist where
  order : List Nat
  waiters : List Waiter
deriving DecidableEq

/-- The zero value of `Waitlist`: no head, no tail, nothing enqueued. -/
def Waitlist.empty : Waitlist := ⟨[], []⟩

/-- `Waitlist.Enqueue(propagateCancel, onCancel)`: create an Active waiter
and link it at the tail; returns the new waiter's index and the new list. -/
def Waitlist.enqueue (l : Waitlist) (pc cb : Bool) : Nat × Waitlist :=
  (l.waiters.length,
    ⟨l.order ++ [l.waiters.length],
     l.waiters ++ [⟨.active, pc, cb, false, 0⟩]⟩)

/-- Transition applied by `notifyNext` to the woken waiter:
`w.state = waiterNotified; close(w.ready)`. -/
def markNotified (w : Waiter) : Waiter :=
  { w with status := .notified, readyClosed := true }

/-- Transition applied by `Broadcast` to each waiter:
`w.state = waiterBroadcasted; close(w.ready)`. -/
def markBroadcasted (w : Waiter) : Waiter :=
  { w with status := .broadcasted, readyClosed := true }

/-- `Waitlist.notifyNext`: no-op when the list is empty; otherwise unlink
the head waiter, panic if it is not Active, and mark it Notified with its
signal fired. -/
def Waitlist.notifyNext (l : Waitlist) : Except String Waitlist :=
  match l.order with
  | [] => .ok l
  | i :: rest =>
    match l.waiters[i]? with
    | none => .error "non active waiter in list"
    | some w =>
      if w.status = .active then
        .ok ⟨rest, l.waiters.set i (markNotified w)⟩
      else
        .error "non active waiter in list"

/-- `Waitlist.Notify`: take the internal lock and wake the oldest waiter. -/
def Waitlist.notify (l : Waitlist) : Except String Waitlist :=
  l.notifyNext

/-- The traversal loop of `Broadcast`: visit the linked waiters from the
head, panicking at the first non-Active one, and mark each Broadcasted with
its signal fired. -/
def broadcastLoop (ids : List Nat) (ws : List Waiter) :
    Except String (List Waiter) :=
  match ids with
  | [] => .ok ws
  | i :: rest =>
    match ws[i]? with
    | none => .error "non active waiter in list"
    | some w =>
      if w.status = .active then
        broadcastLoop rest (ws.set i (markBroadcasted w))
      else
        .error "non active waiter in list"

/-- `Waitlist.Broadcast`: no-op when empty; otherwise sever `tail.next` and
walk the list marking every waiter Broadcasted. The source never resets
`head` or `tail`, so the links (`order`) survive the call. -/
def Waitlist.broadcast (l : Waitlist) : Except String Waitlist :=
  match l.order with
  | [] => .ok l
  | _ :: _ =>
    match broadcastLoop l.order l.waiters with
    | .ok ws => .ok ⟨l.order, ws⟩
    | .error e => .error e

/-- Transition applied when a waiter is cancelled after having been
notified: `w.state = waiterCancelled` (its signal was already fired). -/
def markCancelled (w : Waiter) : Waiter :=
  { w with status := .cancelled }

/-- `Waitlist.cancel` (waitlist.go lines 134-160), the list bookkeeping part
of cancellation. A Notified waiter with `propagateCancel` forwards the wake
token by re-notifying the next waiter (`cancelNotified`); a Notified waiter
without it merely consumes the token; an Active waiter is unlinked and its
signal fired (`cancelActive`); in every other state nothing happens. -/
def Waitlist.cancel (l : Waitlist) (i : Nat) : Except String Waitlist :=
  match l.waiters[i]? with
  | none => .ok l
  | some w =>
    match w.status with
    | .notified =>
      if w.propagateCancel then
        match l.notifyNext with
        | .ok l' =>
          match l'.waiters[i]? with
          | some w' => .ok ⟨l'.order, l'.waiters.set i (markCancelled w')⟩
          | none => .ok l'
        | .error e => .error e
      else
        .ok ⟨l.order, l.waiters.set i (markCancelled w)⟩
    | .active =>
      .ok ⟨l.order.erase i,
           l.waiters.set i { w with status := .cancelled, readyClosed := true }⟩
    | _ => .ok l

/-- The callback part of `Waiter.Cancel`: after the list bookkeeping, the
`onCancel` callback runs whenever one was registered, whatever the waiter's
state. Modelled by bumping the invocation counter. -/
def runOnCancel (l : Waitlist) (i : Nat) : Waitlist :=
  match l.waiters[i]? with
  | some w =>
    if w.hasOnCancel then
      ⟨l.order, l.waiters.set i { w with onCancelRuns := w.onCancelRuns + 1 }⟩
    else l
  | none => l

/-- `Waiter.Cancel` (waitlist.go lines 188-195): run `l.cancel(w)`, then the
`onCancel` callback. When the bookkeeping panics, the callback is never
reached. -/
def Waitlist.waiterCancel (l : Waitlist) (i : Nat) : Except String Waitlist :=
  match l.cancel i with
  | .ok l' => .ok (runOnCancel l' i)
  | .error e => .error e

/-- Enqueue `n` fresh waiters in order (with cancel propagation and no
callback, the combination used by `Waitlist.Wait`). -/
def Waitlist.enqueueN (l : Waitlist) : Nat → Waitlist
  | 0 => l
  | n + 1 => Waitlist.enqueueN (l.enqueue true false).2 n

/-- Run `k` successive `Notify` calls, stopping at the first panic. -/
def afterNotifies (k : Nat) (l : Waitlist) : Except String Waitlist :=
  match k with
  | 0 => .ok l
  | k + 1 =>
    match afterNotifies k l with
    | .ok l' => l'.notifyNext
    | .error e => .error e

/-- The fresh waiter appended by `Waitlist.Wait`-style enqueueing. -/
def freshWaiter : Waiter := ⟨.active, true, false, false, 0⟩

lemma enqueueN_eq (n : Nat) : ∀ l : Waitlist,
    l.enqueueN n = ⟨l.order ++ List.range' l.waiters.length n,
                    l.waiters ++ List.replicate n freshWaiter⟩ := by
  induction n with
  | zero => intro l; simp [Waitlist.enqueueN]
  | succ n ih =>
    intro l
    rw [Waitlist.enqueueN, ih]
    simp only [Waitlist.enqueue, List.length_append, List.length_cons,
      List.length_nil, List.append_assoc]
    rw [List.range'_succ l.waiters.length n 1]
    simp [freshWaiter, List.replicate_succ]

lemma notifyNext_cons (l : Waitlist) (j : Nat) (rest : List Nat) (w : Waiter)
    (ho : l.order = j :: rest) (hw : l.waiters[j]? = some w)
    (ha : w.status = .active) :
    l.notifyNext = .ok ⟨rest, l.waiters.set j (markNotified w)⟩ := by
  unfold Waitlist.notifyNext
  rw [ho]
  dsimp only
  rw [hw]
  dsimp only
  rw [if_pos ha]

lemma afterNotifies_characterization (l : Waitlist) (hnd : l.order.Nodup)
    (hact : ∀ i ∈ l.order, ∃ w, l.waiters[i]? = some w ∧ w.status = .active) :
    ∀ k, k ≤ l.order.length →
      ∃ lk, afterNotifies k l = .ok lk
        ∧ lk.order = l.order.drop k
        ∧ ∀ i, lk.waiters[i]? =
            if i ∈ l.order.take k then (l.waiters[i]?).map markNotified
            else l.waiters[i]? := by
  intro k
  induction k with
  | zero =>
    intro _
    exact ⟨l, rfl, by simp, fun i => by simp⟩
  | succ k ih =>
    intro hk
    obtain ⟨lk, hrun, hord, hwts⟩ := ih (Nat.le_of_succ_le hk)
    have hklt : k < l.order.length := hk
    have hdrop : l.order.drop k = l.order[k] :: l.order.drop (k + 1) :=
      List.drop_eq_getElem_cons hklt
    set j := l.order[k] with hj
    have hjmem : j ∈ l.order := List.getElem_mem hklt
    have htake : l.order.take (k + 1) = l.order.take k ++ [j] := by
      rw [List.take_succ, hj]
      simp [List.getElem?_eq_getElem hklt]
    have hjnotin : j ∉ l.order.take k := by
      have hnd' : (l.order.take (k + 1)).Nodup :=
        hnd.sublist (List.take_sublist (k + 1) l.order)
      rw [htake] at hnd'
      have := List.nodup_append.mp hnd'
      intro hmem
      exact this.2.2 hmem (by simp)
    obtain ⟨w, hw, hwa⟩ := hact j hjmem
    have hlkj : lk.waiters[j]? = some w := by
      rw [hwts j, if_neg hjnotin, hw]
    have hstep : lk.notifyNext =
        .ok ⟨l.order.drop (k + 1), lk.waiters.set j (markNotified w)⟩ :=
      notifyNext_cons lk j (l.order.drop (k + 1)) w (hord.trans hdrop) hlkj hwa
    refine ⟨⟨l.order.drop (k + 1), lk.waiters.set j (markNotified w)⟩, ?_, rfl, ?_⟩
    · show (match afterNotifies k l with
        | .ok l' => l'.notifyNext
        | .error e => .error e) = _
      rw [hrun]
      dsimp only
      exact hstep
    · intro i
      by_cases hij : i = j
      · rw [hij]
        have hlen : j < lk.waiters.length := (List.getElem?_eq_some.mp hlkj).1
        rw [List.getElem?_set_eq_of_lt _ hlen]
        rw [if_pos (by rw [htake]; simp), hw]
        rfl
      · rw [List.getElem?_set_ne (fun h => hij h.symm), hwts i, htake]
        by_cases hin : i ∈ l.order.take k
        · rw [if_pos hin, if_pos (by simp [hin])]
        · rw [if_neg hin, if_neg (by simp [hin, hij])]

/-- Claim C4: enqueue `n` waiters on an empty Waitlist; the first `k ≤ n`
calls to `Notify` all succeed, leaving exactly the first `k` arrivals
Notified (and unlinked, in arrival order) and the remaining `n - k` Active
and linked in arrival order; a `Notify` on an empty Waitlist changes
nothing. -/
theorem c4_fifo_notify (l : Waitlist) (n : Nat) (hord : l.order = []) :
    (∀ k, k ≤ n → ∃ lk, afterNotifies k (l.enqueueN n) = .ok lk
      ∧ lk.order = (List.range' l.waiters.length n).drop k
      ∧ ∀ j, j < n →
          (lk.waiters[l.waiters.length + j]?).map Waiter.status =
            some (if j < k then .notified else .active))
    ∧ l.notify = .ok l := by
  constructor
  · intro k hk
    set base := l.waiters.length with hbase
    have henq : l.enqueueN n =
        ⟨List.range' base n, l.waiters ++ List.replicate n freshWaiter⟩ := by
      rw [enqueueN_eq n l, hord]
      simp
    have hgetr : ∀ j, j < n →
        (l.waiters ++ List.replicate n freshWaiter)[base + j]? = some freshWaiter := by
      intro j hj
      rw [List.getElem?_append_right (by omega)]
      simp [List.getElem?_replicate]
      omega
    have hchar := afterNotifies_characterization (l.enqueueN n)
      (by rw [henq]; exact List.nodup_range' base n)
      (by
        rw [henq]
        intro i hi
        have hi' := List.mem_range'_1.mp hi
        obtain ⟨j, rfl⟩ : ∃ j, i = base + j := ⟨i - base, by omega⟩
        exact ⟨freshWaiter, hgetr j (by omega), rfl⟩)
      k (by rw [henq]; simpa [List.length_range'] using hk)
    obtain ⟨lk, hrun, hordk, hwts⟩ := hchar
    refine ⟨lk, hrun, by rw [hordk, henq], ?_⟩
    intro j hj
    have htk : (l.enqueueN n).order.take k = List.range' base k := by
      rw [henq]
      have happ := List.range'_append base k (n - k) 1
      rw [one_mul, Nat.sub_add_cancel hk] at happ
      show (List.range' base n).take k = List.range' base k
      rw [← happ]
      exact List.take_left' (by simp [List.length_range'])
    have hmemtk : base + j ∈ (l.enqueueN n).order.take k ↔ j < k := by
      rw [htk, List.mem_range'_1]
      omega
    rw [hwts (base + j)]
    by_cases hjk : j < k
    · rw [if_pos (hmemtk.mpr hjk), if_pos hjk]
      rw [henq]
      simp only
      rw [hgetr j hj]
      rfl
    · rw [if_neg (fun hm => hjk (hmemtk.mp hm)), if_neg hjk]
      rw [henq]
      simp only
      rw [hgetr j hj]
      rfl
  · unfold Waitlist.notify Waitlist.notifyNext
    rw [hord]

/-- Witness for C4: two waiters enqueued on the empty Waitlist; after one
Notify the first is Notified and the second still Active and linked. -/
theorem c4_fifo_notify_witness :
    ∃ lk, afterNotifies 1 (Waitlist.empty.enqueueN 2) = .ok lk
      ∧ lk.order = (List.range' 0 2).drop 1
      ∧ (lk.waiters[0]?).map Waiter.status = some .notified
      ∧ (lk.waiters[1]?).map Waiter.status = some .active := by
  obtain ⟨lk, hrun, hord, hwts⟩ :=
    (c4_fifo_notify Waitlist.empty 2 rfl).1 1 (by decide)
  refine ⟨lk, hrun, by simpa using hord, ?_, ?_⟩
  · have := hwts 0 (by decide)
    simpa using this
  · have := hwts 1 (by decide)
    simpa using this

/-- Case analysis of `Waitlist.cancel` by the cancelled waiter's state,
used both for claim C5 and for the callback claim C10. -/
lemma cancel_state_cases (l : Waitlist) (i : Nat) (w : Waiter)
    (hw : l.waiters[i]? = some w) :
    (w.status = .active →
      l.cancel i = .ok ⟨l.order.erase i,
        l.waiters.set i { w with status := .cancelled, readyClosed := true }⟩)
    ∧ (w.status = .notified → w.propagateCancel = true →
        ∀ j rest wj, l.order = j :: rest → l.waiters[j]? = some wj →
          wj.status = .active → j ≠ i →
          l.cancel i = .ok ⟨rest,
            (l.waiters.set j (markNotified wj)).set i (markCancelled w)⟩)
    ∧ (w.status = .notified → w.propagateCancel = true → l.order = [] →
        l.cancel i = .ok ⟨l.order, l.waiters.set i (markCancelled w)⟩)
    ∧ (w.status = .notified → w.propagateCancel = false →
        l.cancel i = .ok ⟨l.order, l.waiters.set i (markCancelled w)⟩) := by
  refine ⟨?_, ?_, ?_, ?_⟩
  · intro ha
    unfold Waitlist.cancel
    rw [hw]
    dsimp only
    rw [ha]
  · intro hn hp j rest wj ho hwj hwja hji
    have hstep := notifyNext_cons l j rest wj ho hwj hwja
    unfold Waitlist.cancel
    rw [hw]
    dsimp only
    rw [hn]
    dsimp only
    rw [hp, if_pos rfl]
    rw [hstep]
    dsimp only
    rw [List.getElem?_set_ne hji, hw]
  · intro hn hp ho
    have hstep : l.notifyNext = .ok l := by
      unfold Waitlist.notifyNext
      rw [ho]
    unfold Waitlist.cancel
    rw [hw]
    dsimp only
    rw [hn]
    dsimp only
    rw [hp, if_pos rfl]
    rw [hstep]
    dsimp only
    rw [hw]
  · intro hn hp
    unfold Waitlist.cancel
    rw [hw]
    dsimp only
    rw [hn]
    dsimp only
    rw [hp, if_neg Bool.false_ne_true]

/-- Claim C5: `Waiter.Cancel` list semantics. An Active waiter is unlinked
and marked Cancelled (its signal fired). A Notified waiter with
`propagateCancel` first forwards the wake token by notifying the next
Active waiter in the list — so that waiter is woken without any additional
`Notify` call — and is then marked Cancelled; when the list is empty the
token is dropped and the waiter just marked Cancelled. A Notified waiter
without `propagateCancel` consumes the token: it is marked Cancelled and no
other waiter is woken. -/
theorem c5_cancel_semantics (l : Waitlist) (i : Nat) (w : Waiter)
    (hw : l.waiters[i]? = some w) :
    (w.status = .active →
      l.cancel i = .ok ⟨l.order.erase i,
        l.waiters.set i { w with status := .cancelled, readyClosed := true }⟩)
    ∧ (w.status = .notified → w.propagateCancel = true →
        ∀ j rest wj, l.order = j :: rest → l.waiters[j]? = some wj →
          wj.status = .active → j ≠ i →
          l.cancel i = .ok ⟨rest,
            (l.waiters.set j (markNotified wj)).set i (markCancelled w)⟩)
    ∧ (w.status = .notified → w.propagateCancel = true → l.order = [] →
        l.cancel i = .ok ⟨l.order, l.waiters.set i (markCancelled w)⟩)
    ∧ (w.status = .notified → w.propagateCancel = false →
        l.cancel i = .ok ⟨l.order, l.waiters.set i (markCancelled w)⟩) :=
  cancel_state_cases l i w hw

/-- Witness for C5 at a concrete state: waiter 0 was already woken by a
Notify (it is Notified) and waiter 1 is the next linked Active waiter;
cancelling waiter 0 with propagation re-notifies waiter 1 in the same call
and marks waiter 0 Cancelled. -/
theorem c5_cancel_semantics_witness :
    Waitlist.cancel
        ⟨[1], [⟨.notified, true, false, true, 0⟩, ⟨.active, true, false, false, 0⟩]⟩ 0 =
      .ok ⟨[], [⟨.cancelled, true, false, true, 0⟩, ⟨.notified, true, false, true, 0⟩]⟩ := by
  have h := (c5_cancel_semantics
      ⟨[1], [⟨.notified, true, false, true, 0⟩, ⟨.active, true, false, false, 0⟩]⟩
      0 ⟨.notified, true, false, true, 0⟩ (by decide)).2.1
      rfl rfl 1 [] ⟨.active, true, false, false, 0⟩ rfl (by decide) rfl (by decide)
  exact h.trans (by rfl)

/-- The two-waiter scenario used to exhibit the Broadcast defect: two
waiters enqueued on an empty Waitlist. -/
def c6pair : Waitlist := ((Waitlist.empty.enqueue true false).2.enqueue true false).2

/-- Claim C6 (code bug): `Broadcast` on a two-waiter list does transition
every waiter to Broadcasted and fires each signal, but — because the source
never resets `head`/`tail` — the list is NOT cleared: both waiters are still
linked afterwards, and a subsequent `Notify` hits the fatal
"non active waiter in list" check instead of being a no-op on an empty
list. Broadcast on an empty Waitlist is a no-op, as claimed. -/
theorem c6_broadcast_does_not_clear :
    c6pair.broadcast =
      .ok ⟨[0, 1], [⟨.broadcasted, true, false, true, 0⟩,
                    ⟨.broadcasted, true, false, true, 0⟩]⟩
    ∧ Waitlist.notifyNext
        ⟨[0, 1], [⟨.broadcasted, true, false, true, 0⟩,
                  ⟨.broadcasted, true, false, true, 0⟩]⟩ =
        .error "non active waiter in list"
    ∧ Waitlist.broadcast Waitlist.empty = .ok Waitlist.empty := by
  refine ⟨by rfl, by rfl, rfl⟩

/-- Claim C10 as stated: Cancel always reaches the registered on-cancel
callback, whatever the waiter's current state. -/
def cancelAlwaysRunsCallback : Prop :=
  ∀ (l : Waitlist) (i : Nat) (w : Waiter),
    l.waiters[i]? = some w → w.hasOnCancel = true →
    ∃ l', l.waiterCancel i = .ok l'
      ∧ (l'.waiters[i]?).map Waiter.onCancelRuns = some (w.onCancelRuns + 1)

/-- The corrupt-list scenario refuting C10 as stated: waiter 0 (with
callback, cancel propagation) and waiter 1 enqueued; waiter 0 is then woken
by Notify, after which Broadcast runs — leaving waiter 1 linked but
Broadcasted. -/
def c10pre : Waitlist := ((Waitlist.empty.enqueue true true).2.enqueue true false).2

/-- Claim C10 counterexample: after `Notify` wakes waiter 0 and `Broadcast`
corrupts the list (claim C6), cancelling waiter 0 — Notified, with
propagation — panics inside the forwarding `notifyNext` before the
callback runs, so `Waiter.Cancel` does not invoke the on-cancel callback on
every call. -/
theorem c10_counterexample :
    (∃ l3 l4, c10pre.notify = .ok l3 ∧ l3.broadcast = .ok l4
      ∧ l4.waiterCancel 0 = .error "non active waiter in list"
      ∧ (l4.waiters[0]?).map Waiter.hasOnCancel = some true
      ∧ (l4.waiters[0]?).map Waiter.status = some .notified)
    ∧ ¬cancelAlwaysRunsCallback := by
  constructor
  · exact ⟨⟨[1], [⟨.notified, true, true, true, 0⟩, ⟨.active, true, false, false, 0⟩]⟩,
      ⟨[1], [⟨.notified, true, true, true, 0⟩, ⟨.broadcasted, true, false, true, 0⟩]⟩,
      by rfl, by rfl, by rfl, by rfl, by rfl⟩
  · intro h
    obtain ⟨l', hl', _⟩ := h
      ⟨[1], [⟨.notified, true, true, true, 0⟩, ⟨.broadcasted, true, false, true, 0⟩]⟩
      0 ⟨.notified, true, true, true, 0⟩ (by decide) (by decide)
    have : Waitlist.waiterCancel
        ⟨[1], [⟨.notified, true, true, true, 0⟩, ⟨.broadcasted, true, false, true, 0⟩]⟩ 0 =
        .error "non active waiter in list" := by rfl
    rw [this] at hl'
    exact Except.noConfusion hl'

lemma runOnCancel_eq (l : Waitlist) (i : Nat) (w : Waiter)
    (hw : l.waiters[i]? = some w) (hcb : w.hasOnCancel = true) :
    runOnCancel l i =
      ⟨l.order, l.waiters.set i { w with onCancelRuns := w.onCancelRuns + 1 }⟩ := by
  unfold runOnCancel
  rw [hw]
  dsimp only
  rw [if_pos hcb]

/-- Claim C10 (amended): `Waiter.Cancel` invokes the registered on-cancel
callback once per call regardless of the waiter's state — including
repeated cancels and waiters already Broadcasted, Cancelled or Inactive, in
which cases links and state are untouched — provided the forwarding path of
a Notified waiter with propagation does not hit the list-corruption panic,
i.e. whenever every waiter still linked in the list is Active. -/
theorem c10_cancel_runs_callback (l : Waitlist) (i : Nat) (w : Waiter)
    (hw : l.waiters[i]? = some w) (hcb : w.hasOnCancel = true) :
    (w.status = .broadcasted ∨ w.status = .cancelled ∨ w.status = .inactive →
      l.waiterCancel i =
        .ok ⟨l.order, l.waiters.set i { w with onCancelRuns := w.onCancelRuns + 1 }⟩)
    ∧ (w.status = .active →
      ∃ l', l.waiterCancel i = .ok l'
        ∧ (l'.waiters[i]?).map Waiter.onCancelRuns = some (w.onCancelRuns + 1)
        ∧ l'.order = l.order.erase i)
    ∧ (w.status = .notified →
      (∀ j ∈ l.order, ∃ wj, l.waiters[j]? = some wj ∧ wj.status = .active) →
      ∃ l', l.waiterCancel i = .ok l'
        ∧ (l'.waiters[i]?).map Waiter.onCancelRuns = some (w.onCancelRuns + 1)) := by
  have hwlen : i < l.waiters.length := (List.getElem?_eq_some.mp hw).1
  refine ⟨?_, ?_, ?_⟩
  · intro hst
    have hcl : l.cancel i = .ok l := by
      unfold Waitlist.cancel
      rw [hw]
      dsimp only
      rcases hst with h | h | h <;> rw [h]
    unfold Waitlist.waiterCancel
    rw [hcl]
    dsimp only
    rw [runOnCancel_eq l i w hw hcb]
  · intro ha
    have hcl := (cancel_state_cases l i w hw).1 ha
    have hget : (l.waiters.set i { w with status := .cancelled, readyClosed := true })[i]? =
        some { w with status := .cancelled, readyClosed := true } :=
      List.getElem?_set_eq_of_lt _ hwlen
    have hrc := runOnCancel_eq
      ⟨l.order.erase i, l.waiters.set i { w with status := .cancelled, readyClosed := true }⟩
      i { w with status := .cancelled, readyClosed := true } hget hcb
    refine ⟨runOnCancel
      ⟨l.order.erase i, l.waiters.set i { w with status := .cancelled, readyClosed := true }⟩ i,
      ?_, ?_, ?_⟩
    · unfold Waitlist.waiterCancel
      rw [hcl]
    · rw [hrc]
      dsimp only
      rw [List.getElem?_set_eq_of_lt _ (by simpa using hwlen)]
      rfl
    · rw [hrc]
  · intro hn hact
    rcases hpc : w.propagateCancel with _ | _
    · have hcl := (cancel_state_cases l i w hw).2.2.2 hn hpc
      have hget : (l.waiters.set i (markCancelled w))[i]? = some (markCancelled w) :=
        List.getElem?_set_eq_of_lt _ hwlen
      have hrc := runOnCancel_eq ⟨l.order, l.waiters.set i (markCancelled w)⟩ i
        (markCancelled w) hget hcb
      refine ⟨runOnCancel ⟨l.order, l.waiters.set i (markCancelled w)⟩ i, ?_, ?_⟩
      · unfold Waitlist.waiterCancel
        rw [hcl]
      · rw [hrc]
        dsimp only
        rw [List.getElem?_set_eq_of_lt _ (by simpa using hwlen)]
        rfl
    · cases ho : l.order with
      | nil =>
        have hcl := (cancel_state_cases l i w hw).2.2.1 hn hpc ho
        have hget : (l.waiters.set i (markCancelled w))[i]? = some (markCancelled w) :=
          List.getElem?_set_eq_of_lt _ hwlen
        have hrc := runOnCancel_eq ⟨l.order, l.waiters.set i (markCancelled w)⟩ i
          (markCancelled w) hget hcb
        refine ⟨runOnCancel ⟨l.order, l.waiters.set i (markCancelled w)⟩ i, ?_, ?_⟩
        · unfold Waitlist.waiterCancel
          rw [hcl]
        · rw [hrc]
          dsimp only
          rw [List.getElem?_set_eq_of_lt _ (by simpa using hwlen)]
          rfl
      | cons j rest =>
        obtain ⟨wj, hwj, hwja⟩ := hact j (by rw [ho]; exact List.mem_cons_self j rest)
        have hji : j ≠ i := by
          intro hji
          rw [hji, hw] at hwj
          have := Option.some_inj.mp hwj
          rw [← this, hn] at hwja
          exact WaiterStatus.noConfusion hwja
        have hcl := (cancel_state_cases l i w hw).2.1 hn hpc j rest wj ho hwj hwja hji
        have hget : ((l.waiters.set j (markNotified wj)).set i (markCancelled w))[i]? =
            some (markCancelled w) :=
          List.getElem?_set_eq_of_lt _ (by simpa using hwlen)
        have hrc := runOnCancel_eq
          ⟨rest, (l.waiters.set j (markNotified wj)).set i (markCancelled w)⟩ i
          (markCancelled w) hget hcb
        refine ⟨runOnCancel
          ⟨rest, (l.waiters.set j (markNotified wj)).set i (markCancelled w)⟩ i, ?_, ?_⟩
        · unfold Waitlist.waiterCancel
          rw [hcl]
        · rw [hrc]
          dsimp only
          rw [List.getElem?_set_eq_of_lt _ (by simpa using hwlen)]
          rfl

/-- Witness for C10 at a concrete input: cancelling an already-Cancelled
waiter leaves the list untouched and still runs the callback (a second
time). -/
theorem c10_cancel_runs_callback_witness :
    Waitlist.waiterCancel ⟨[], [⟨.cancelled, false, true, true, 1⟩]⟩ 0 =
      .ok ⟨[], [⟨.cancelled, false, true, true, 2⟩]⟩ := by
  have h := (c10_cancel_runs_callback ⟨[], [⟨.cancelled, false, true, true, 1⟩]⟩
      0 ⟨.cancelled, false, true, true, 1⟩ (by decide) (by decide)).1
      (Or.inr (Or.inl rfl))
  exact h.trans (by rfl)

/-! ## LockManager reference counting (src/unison/lockmanager.go, part_005)

`concert.RefCount` stores a `uint32` whose zero value already stands for one
outstanding reference (`Release` on the zero value wraps to `refCountFree`
and reports the entry free). The embedding stores, for the single key under
test, `some c` when the table has an entry whose Go counter equals `c` — so
`c + 1` references are outstanding — and `none` when the table has no entry
for the key. Handles are cells of a list: `linked` mirrors `ml.entry != nil`
and `sessionSet` mirrors `ml.session != nil` (which `doUnlock` in this
source never resets). Each complete API call of the sequential refcount
claim is one atomic step. -/

/-- A `ManagedLock` handle as seen by the reference-counting model. -/
structure RCHandle where
  linked : Bool
  sessionSet : Bool
deriving DecidableEq

/-- The manager's table restricted to one key, plus every handle created for
that key. -/
structure LMTable where
  refCount : Option Nat
  handles : List RCHandle
deriving DecidableEq

/-- A fresh `LockManager`: no entry, no handles. -/
def rcInit : LMTable := ⟨none, []⟩

/-- `findOrCreate`: `findEntry` retains an existing entry
(`entry.ref.Retain()`), otherwise `createEntry` installs a fresh entry whose
zero-valued `RefCount` already counts the creator's reference. -/
def retainEntry : Option Nat → Option Nat
  | none => some 0
  | some c => some (c + 1)

/-- `releaseEntry`: `entry.ref.Release()` decrements; when the counter wraps
to the free state the entry is deleted from the table. -/
def releaseEntry : Option Nat → Option Nat
  | none => none
  | some 0 => none
  | some (c + 1) => some c

/-- Operations of the refcount claim: `Access`, an acquire that succeeds, an
acquire that fails (`TryLock`/`LockTimeout`/`LockContext` reporting
failure), and `Unlock`. -/
inductive RCOp where
  | access
  | lockOk (h : Nat)
  | lockFail (h : Nat)
  | unlock (h : Nat)
deriving DecidableEq

/-- One sequential API call against the manager. `Access` touches no shared
state. An acquire first runs `checkNoActiveLockSession` (panicking — state
unchanged — when the handle still has a session), then `ml.link(true)`
binds or creates the entry, and on failure `ml.unlink()` releases it again.
`Unlock` runs `checkActiveLockSession`, then `doUnlock` releases the entry
via `ml.unlink()` — while leaving `ml.session` in place, as the source
does. -/
def rcStep (st : LMTable) (op : RCOp) : LMTable :=
  match op with
  | .access => { st with handles := st.handles ++ [⟨false, false⟩] }
  | .lockOk h =>
    match st.handles[h]? with
    | none => st
    | some hs =>
      if hs.sessionSet then st
      else
        { refCount := if hs.linked then st.refCount else retainEntry st.refCount,
          handles := st.handles.set h ⟨true, true⟩ }
  | .lockFail h =>
    match st.handles[h]? with
    | none => st
    | some hs =>
      if hs.sessionSet then st
      else
        { refCount := releaseEntry
            (if hs.linked then st.refCount else retainEntry st.refCount),
          handles := st.handles.set h ⟨false, false⟩ }
  | .unlock h =>
    match st.handles[h]? with
    | none => st
    | some hs =>
      if hs.sessionSet then
        if hs.linked then
          { refCount := releaseEntry st.refCount,
            handles := st.handles.set h ⟨false, true⟩ }
        else st
      else st

/-- The number of outstanding references the table state stands for: none
while the key has no entry, and the stored Go counter plus one otherwise. -/
def refsOutstanding : Option Nat → Nat
  | none => 0
  | some c => c + 1

/-- The bookkeeping invariant tying the table to the handles: the entry for
the key exists exactly while references are outstanding, its counter is the
number of linked handles minus one, and a linked handle always carries its
session. -/
def rcInv (st : LMTable) : Prop :=
  st.handles.countP (fun hs => hs.linked) = refsOutstanding st.refCount
  ∧ ∀ hs ∈ st.handles, hs.linked = true → hs.sessionSet = true

lemma countLinked_set (l : List RCHandle) (h : Nat) (a : RCHandle)
    (hlen : h < l.length) :
    (l.set h a).countP (fun x => x.linked) + (if l[h].linked then 1 else 0) =
      l.countP (fun x => x.linked) + (if a.linked then 1 else 0) := by
  have hdecomp : l = l.take h ++ l[h] :: l.drop (h + 1) := by
    conv_lhs => rw [← List.take_append_drop h l, List.drop_eq_getElem_cons hlen]
  rw [List.set_eq_take_cons_drop a hlen]
  conv_rhs => rw [hdecomp]
  rw [List.countP_append, List.countP_append, List.countP_cons, List.countP_cons]
  split_ifs <;> omega

lemma releaseEntry_retainEntry (x : Option Nat) :
    releaseEntry (retainEntry x) = x := by
  cases x <;> rfl

lemma getElem_of_getElemQ (l : List RCHandle) (h : Nat) (hs : RCHandle)
    (hget : l[h]? = some hs) (hlen : h < l.length) : l[h] = hs := by
  have := List.getElem?_eq_getElem hlen
  rw [hget] at this
  exact Option.some_inj.mp this.symm

lemma rcStep_inv (st : LMTable) (op : RCOp) (hinv : rcInv st) :
    rcInv (rcStep st op) := by
  obtain ⟨hcount, hlink⟩ := hinv
  cases op with
  | access =>
    refine ⟨?_, ?_⟩
    · show (st.handles ++ [(⟨false, false⟩ : RCHandle)]).countP (fun x => x.linked) = _
      rw [List.countP_append]
      simpa using hcount
    · intro hs hmem hl
      rcases List.mem_append.mp hmem with hmem | hmem
      · exact hlink hs hmem hl
      · simp at hmem
        rw [hmem] at hl
        exact Bool.noConfusion hl
  | lockOk h =>
    dsimp only [rcStep]
    cases hget : st.handles[h]? with
    | none =>
      dsimp only
      exact ⟨hcount, hlink⟩
    | some hs =>
      dsimp only
      by_cases hsess : hs.sessionSet
      · rw [if_pos hsess]
        exact ⟨hcount, hlink⟩
      · rw [if_neg hsess]
        have hlen : h < st.handles.length := (List.getElem?_eq_some.mp hget).1
        have hel : st.handles[h] = hs := getElem_of_getElemQ _ _ _ hget hlen
        have hnl : hs.linked = false := by
          cases hx : hs.linked with
          | false => rfl
          | true => exact absurd (hlink hs (hel ▸ List.getElem_mem hlen) hx) hsess
        have hx := countLinked_set st.handles h ⟨true, true⟩ hlen
        rw [hel, hnl] at hx
        simp at hx
        refine ⟨?_, ?_⟩
        · show (st.handles.set h ⟨true, true⟩).countP (fun x => x.linked) = _
          simp only [hnl, Bool.false_eq_true, if_false]
          cases hrc : st.refCount with
          | none =>
            rw [hrc] at hcount
            simp only [refsOutstanding] at hcount
            simp only [retainEntry, refsOutstanding]
            omega
          | some c =>
            rw [hrc] at hcount
            simp only [refsOutstanding] at hcount
            simp only [retainEntry, refsOutstanding]
            omega
        · intro x hmem hxl
          rcases List.mem_or_eq_of_mem_set hmem with hmem | rfl
          · exact hlink x hmem hxl
          · rfl
  | lockFail h =>
    dsimp only [rcStep]
    cases hget : st.handles[h]? with
    | none =>
      dsimp only
      exact ⟨hcount, hlink⟩
    | some hs =>
      dsimp only
      by_cases hsess : hs.sessionSet
      · rw [if_pos hsess]
        exact ⟨hcount, hlink⟩
      · rw [if_neg hsess]
        have hlen : h < st.handles.length := (List.getElem?_eq_some.mp hget).1
        have hel : st.handles[h] = hs := getElem_of_getElemQ _ _ _ hget hlen
        have hnl : hs.linked = false := by
          cases hx : hs.linked with
          | false => rfl
          | true => exact absurd (hlink hs (hel ▸ List.getElem_mem hlen) hx) hsess
        have hx := countLinked_set st.handles h ⟨false, false⟩ hlen
        rw [hel, hnl] at hx
        simp at hx
        refine ⟨?_, ?_⟩
        · show (st.handles.set h ⟨false, false⟩).countP (fun x => x.linked) = _
          simp only [hnl, Bool.false_eq_true, if_false, releaseEntry_retainEntry]
          rw [hx]
          exact hcount
        · intro x hmem hxl
          rcases List.mem_or_eq_of_mem_set hmem with hmem | rfl
          · exact hlink x hmem hxl
          · exact Bool.noConfusion hxl
  | unlock h =>
    dsimp only [rcStep]
    cases hget : st.handles[h]? with
    | none =>
      dsimp only
      exact ⟨hcount, hlink⟩
    | some hs =>
      dsimp only
      by_cases hsess : hs.sessionSet
      · rw [if_pos hsess]
        by_cases hl : hs.linked
        · rw [if_pos hl]
          have hlen : h < st.handles.length := (List.getElem?_eq_some.mp hget).1
          have hel : st.handles[h] = hs := getElem_of_getElemQ _ _ _ hget hlen
          have hpos : 0 < st.handles.countP (fun x => x.linked) :=
            List.countP_pos_iff.mpr ⟨hs, hel ▸ List.getElem_mem hlen, by simp [hl]⟩
          have hx := countLinked_set st.handles h ⟨false, true⟩ hlen
          rw [hel, hl] at hx
          simp at hx
          refine ⟨?_, ?_⟩
          · show (st.handles.set h ⟨false, true⟩).countP (fun x => x.linked) = _
            cases hrc : st.refCount with
            | none =>
              rw [hrc] at hcount
              simp only [refsOutstanding] at hcount
              omega
            | some c =>
              rw [hrc] at hcount
              simp only [refsOutstanding] at hcount
              cases c with
              | zero =>
                simp only [releaseEntry, refsOutstanding]
                omega
              | succ c =>
                simp only [releaseEntry, refsOutstanding]
                omega
          · intro x hmem hxl
            rcases List.mem_or_eq_of_mem_set hmem with hmem | rfl
            · exact hlink x hmem hxl
            · exact Bool.noConfusion hxl
        · rw [if_neg hl]
          exact ⟨hcount, hlink⟩
      · rw [if_neg hsess]
        exact ⟨hcount, hlink⟩

lemma rcInv_foldl (ops : List RCOp) : ∀ st : LMTable, rcInv st →
    rcInv (ops.foldl rcStep st) := by
  induction ops with
  | nil => intro st h; exact h
  | cons op rest ih =>
    intro st h
    exact ih (rcStep st op) (rcStep_inv st op h)

/-- Claim C3: after any finite sequence of `Access`, acquire attempts
(successful or failed), and `Unlock` calls for a key, the manager's table
has no entry for that key once every handle has released (no handle is
linked); while an entry exists, its reference counter is exactly the number
of linked handles minus one — so the entry is present exactly while
references are outstanding — and `releaseEntry` deletes the entry exactly
when the counter returns to its free state. -/
theorem c3_refcount_reclaims (ops : List RCOp) :
    ((∀ hs ∈ (ops.foldl rcStep rcInit).handles, hs.linked = false) →
      (ops.foldl rcStep rcInit).refCount = none)
    ∧ (∀ c, (ops.foldl rcStep rcInit).refCount = some c →
        (ops.foldl rcStep rcInit).handles.countP (fun hs => hs.linked) = c + 1)
    ∧ ((ops.foldl rcStep rcInit).refCount = none →
        ∀ hs ∈ (ops.foldl rcStep rcInit).handles, hs.linked = false)
    ∧ (∀ c, releaseEntry (some c) = none ↔ c = 0) := by
  have hinv := rcInv_foldl ops rcInit ⟨rfl, by intro hs h; exact absurd h (by simp [rcInit])⟩
  obtain ⟨hcount, hlink⟩ := hinv
  refine ⟨?_, ?_, ?_, ?_⟩
  · intro hall
    have hzero : (ops.foldl rcStep rcInit).handles.countP (fun hs => hs.linked) = 0 := by
      rw [List.countP_eq_zero]
      intro a ha
      simp [hall a ha]
    cases hrc : (ops.foldl rcStep rcInit).refCount with
    | none => rfl
    | some c =>
      rw [hrc] at hcount
      simp only [refsOutstanding] at hcount
      omega
  · intro c hc
    rw [hc] at hcount
    simpa [refsOutstanding] using hcount
  · intro hrc hs hmem
    rw [hrc] at hcount
    simp only [refsOutstanding] at hcount
    have := List.countP_eq_zero.mp hcount hs hmem
    simpa using this
  · intro c
    cases c with
    | zero => simp [releaseEntry]
    | succ c => simp [releaseEntry]

/-- Witness for C3: two handles are created; handle 0 locks and unlocks,
handle 1 fails an acquire. Afterwards no handle is linked and the theorem
yields an empty table for the key. -/
theorem c3_refcount_reclaims_witness :
    ([RCOp.access, RCOp.access, RCOp.lockOk 0, RCOp.lockFail 1,
        RCOp.unlock 0].foldl rcStep rcInit).refCount = none := by
  exact (c3_refcount_reclaims
    [RCOp.access, RCOp.access, RCOp.lockOk 0, RCOp.lockFail 1, RCOp.unlock 0]).1
    (by decide)

/-! ## LockManager sessions and mutual exclusion (src/unison/lockmanager.go)

A small-step transition system for one key of the `LockManager`, at the
granularity of the source's atomic actions: the channel operations of the
entry's shared `Mutex`, the critical sections guarded by the entry's
`muInternal`, and the `LockSession` signal calls that the source performs
OUTSIDE those critical sections (`session.unlock()` in
`ManagedLock.doUnlock`, `session.forceUnlock()` in
`LockManager.ForceUnlock`). Handles and sessions are numbered; `sessions`
and `handles` are partial maps. `holdsToken` is a ghost flag recording
which handle's acquisition currently owns the mutex token (set when the
receive succeeds, cleared when the token is sent back on the handle's
behalf, by its own `doUnlock` or by `ForceUnlock`). Following the source,
`doUnlock` never resets `ml.session`. -/

/-- A `LockSession`: the `isLocked` atomic flag, which of the one-shot
signal channels have been closed, and the progress of a forced revocation
(`revokeStarted` = the `ForceUnlock` critical section ran;
`revokeSignaled` = the subsequent `session.forceUnlock()` call ran). -/
structure LSession where
  isLocked : Bool
  unlockedFired : Bool
  lostFired : Bool
  doneFired : Bool
  revokeStarted : Bool
  revokeSignaled : Bool
deriving DecidableEq

/-- Where a handle's goroutine stands inside an API call: between the
successful mutex receive and `markLocked`, or between `doUnlock`'s
bookkeeping critical section and its `session.unlock()` call. -/
inductive MLPhase where
  | idle
  | acquiring
  | releasing (sid : Nat)
deriving DecidableEq

/-- A `ManagedLock` handle: its `ml.session` pointer (never reset by
`doUnlock` in this source), the ghost token-ownership flag, and its call
phase. -/
structure MLHandle where
  session : Option Nat
  holdsToken : Bool
  phase : MLPhase
deriving DecidableEq

/-- Global state for one key: the mutex slot, the session name supply, the
session store, the entry's recorded session (`entry.session`), and the
handle store. -/
structure LMachine where
  token : Bool
  nextSid : Nat
  sessions : Nat → Option LSession
  entrySession : Option Nat
  handles : Nat → Option MLHandle

/-- Atomic steps: create a handle (`Access`); the acquire check plus mutex
receive; `markLocked`; `doUnlock`'s bookkeeping critical section;
`session.unlock()`; `ForceUnlock`'s critical section; the revoked session's
`session.forceUnlock()`. -/
inductive LMOp where
  | access (h : Nat)
  | lockTake (h : Nat)
  | markLocked (h : Nat)
  | unlockEntry (h : Nat)
  | unlockSignal (h : Nat)
  | forceRevoke
  | forceSignal (s : Nat)
deriving DecidableEq

/-- Step outcome: a new state, a Go panic, or no transition (the operation
blocks or is not enabled in this state). -/
inductive StepOut where
  | ok (st : LMachine)
  | fatal (msg : String)
  | blocked

/-- `newLockSession()`: locked, no signal fired yet. -/
def newSession : LSession := ⟨true, false, false, false, false, false⟩

/-- Ghost update of `ForceUnlock`: the handle owning the revoked session no
longer owns the mutex token (the manager just sent it back). -/
def dropHold (hm : Nat → Option MLHandle) (s : Nat) : Nat → Option MLHandle :=
  fun h =>
    match hm h with
    | some hs => if hs.session = some s then some { hs with holdsToken := false } else some hs
    | none => none

/-- One atomic step of the lock manager on one key, straight from the
source: `lockTake` is `checkNoActiveLockSession` followed by the blocking
receive in `ml.entry.Lock()`; `markLocked` creates the session and records
it in the entry under `muInternal`; `unlockEntry` is
`checkActiveLockSession` plus the `muInternal` section of `doUnlock`
(release the mutex only when the sessions still match and `isLocked`);
`unlockSignal` is the unconditional `session.unlock()`; `forceRevoke` is
the `muInternal` section of `ForceUnlock` (clear the entry's session and
release the mutex when `isLocked`); `forceSignal` is the subsequent
`session.forceUnlock()`. -/
def step (op : LMOp) (st : LMachine) : StepOut :=
  match op with
  | .access h =>
    match st.handles h with
    | some _ => .blocked
    | none =>
      .ok { st with handles := Function.update st.handles h (some ⟨none, false, .idle⟩) }
  | .lockTake h =>
    match st.handles h with
    | none => .blocked
    | some hs =>
      if hs.phase ≠ .idle then .blocked
      else
        match hs.session with
        | some _ =>
          .fatal "lock still has an active lock session, missing call to Unlock to finish the session"
        | none =>
          if st.token then
            .ok { st with
              token := false,
              handles := Function.update st.handles h
                (some { hs with holdsToken := true, phase := .acquiring }) }
          else .blocked
  | .markLocked h =>
    match st.handles h with
    | none => .blocked
    | some hs =>
      if hs.phase = .acquiring then
        .ok { st with
          nextSid := st.nextSid + 1,
          sessions := Function.update st.sessions st.nextSid (some newSession),
          entrySession := some st.nextSid,
          handles := Function.update st.handles h
            (some { hs with session := some st.nextSid, phase := .idle }) }
      else .blocked
  | .unlockEntry h =>
    match st.handles h with
    | none => .blocked
    | some hs =>
      if hs.phase ≠ .idle then .blocked
      else
        match hs.session with
        | none => .fatal "no active lock session"
        | some s =>
          if st.entrySession = some s then
            match st.sessions s with
            | none => .blocked
            | some ss =>
              if ss.isLocked then
                if st.token then .blocked
                else
                  .ok { st with
                    token := true,
                    entrySession := none,
                    handles := Function.update st.handles h
                      (some { hs with holdsToken := false, phase := .releasing s }) }
              else
                .ok { st with
                  entrySession := none,
                  handles := Function.update st.handles h
                    (some { hs with phase := .releasing s }) }
          else
            .ok { st with
              handles := Function.update st.handles h
                (some { hs with phase := .releasing s }) }
  | .unlockSignal h =>
    match st.handles h with
    | none => .blocked
    | some hs =>
      match hs.phase with
      | .releasing s =>
        match st.sessions s with
        | none => .blocked
        | some ss =>
          .ok { st with
            sessions := Function.update st.sessions s
              (some { ss with isLocked := false, unlockedFired := true, doneFired := true }),
            handles := Function.update st.handles h (some { hs with phase := .idle }) }
      | _ => .blocked
  | .forceRevoke =>
    match st.entrySession with
    | none => .blocked
    | some s =>
      match st.sessions s with
      | none => .blocked
      | some ss =>
        if ss.isLocked then
          if st.token then .blocked
          else
            .ok { st with
              token := true,
              entrySession := none,
              sessions := Function.update st.sessions s (some { ss with revokeStarted := true }),
              handles := dropHold st.handles s }
        else
          .ok { st with
            entrySession := none,
            sessions := Function.update st.sessions s (some { ss with revokeStarted := true }) }
  | .forceSignal s =>
    match st.sessions s with
    | none => .blocked
    | some ss =>
      if ss.revokeStarted && !ss.revokeSignaled then
        .ok { st with
          sessions := Function.update st.sessions s
            (some { ss with isLocked := false, lostFired := true, doneFired := true,
                            revokeSignaled := true }) }
      else .blocked

/-- The initial state: fresh manager, fresh `MakeMutex` entry (one token
buffered), no sessions, no handles. -/
def initLM : LMachine := ⟨true, 0, fun _ => none, none, fun _ => none⟩

/-- Reachability by `ok` steps from the initial state — the states some
interleaving of lock-manager calls on one key can produce. -/
inductive Reach : LMachine → Prop where
  | init : Reach initLM
  | next (op : LMOp) (st st' : LMachine) : Reach st → step op st = .ok st' → Reach st'

/-- Run a list of steps, skipping those not enabled. -/
def runOps (ops : List LMOp) (st : LMachine) : LMachine :=
  match ops with
  | [] => st
  | op :: rest =>
    match step op st with
    | .ok st' => runOps rest st'
    | _ => runOps rest st

lemma reach_runOps (ops : List LMOp) : ∀ st : LMachine, Reach st →
    Reach (runOps ops st) := by
  induction ops with
  | nil => intro st h; exact h
  | cons op rest ih =>
    intro st h
    show Reach (match step op st with
      | .ok st' => runOps rest st' | _ => runOps rest st)
    cases hst : step op st with
    | ok st' => exact ih st' (Reach.next op st st' h hst)
    | fatal msg => exact ih st h
    | blocked => exact ih st h

lemma update_lookup {α : Type} (f : Nat → Option α) (h : Nat) (v : Option α)
    (x : Nat) : Function.update f h v x = if x = h then v else f x := by
  by_cases hx : x = h
  · rw [hx, Function.update_same, if_pos rfl]
  · rw [Function.update_noteq hx, if_neg hx]

/-- The inductive invariant of the one-key lock manager: token ownership is
exclusive, the entry's recorded session is live and owned, session names
are fresh, phases are consistent, and the one-shot signals obey the
`doUnlock` discipline (Done is closed exactly when Unlocked or LockLost
is, and LockLost is closed exactly by a revocation's `forceUnlock`). -/
structure Inv (st : LMachine) : Prop where
  holderUnique : ∀ h1 h2 hs1 hs2, st.handles h1 = some hs1 → st.handles h2 = some hs2 →
    hs1.holdsToken = true → hs2.holdsToken = true → h1 = h2
  tokenFree : st.token = true → ∀ h hs, st.handles h = some hs → hs.holdsToken = false
  entryLive : ∀ s, st.entrySession = some s → ∃ ss, st.sessions s = some ss ∧
    ss.isLocked = true ∧ ss.revokeStarted = false ∧ st.token = false
  entryOwner : ∀ s, st.entrySession = some s → ∀ h hs, st.handles h = some hs →
    hs.session = some s → hs.holdsToken = true ∧ hs.phase = .idle
  entryOwnerExists : ∀ s, st.entrySession = some s → ∃ h hs, st.handles h = some hs ∧
    hs.session = some s
  sidFresh : ∀ h hs, st.handles h = some hs → ∀ s, hs.session = some s → s < st.nextSid
  sessFresh : ∀ s, st.nextSid ≤ s → st.sessions s = none
  holdsChar : ∀ h hs, st.handles h = some hs → hs.holdsToken = true →
    hs.phase = .acquiring ∨ ∃ s, hs.session = some s ∧ st.entrySession = some s
  acqHolds : ∀ h hs, st.handles h = some hs → hs.phase = .acquiring →
    hs.holdsToken = true ∧ hs.session = none
  relPhase : ∀ h hs s, st.handles h = some hs → hs.phase = .releasing s →
    hs.session = some s ∧ st.entrySession ≠ some s
  sigDone : ∀ s ss, st.sessions s = some ss →
    ss.doneFired = (ss.unlockedFired || ss.lostFired)
  lostSignaled : ∀ s ss, st.sessions s = some ss → ss.lostFired = ss.revokeSignaled
  signaledStarted : ∀ s ss, st.sessions s = some ss → ss.revokeSignaled = true →
    ss.revokeStarted = true

lemma inv_init : Inv initLM := by
  refine ⟨?_, ?_, ?_, ?_, ?_, ?_, ?_, ?_, ?_, ?_, ?_, ?_, ?_⟩ <;>
    intro _ <;> intros <;> simp_all [initLM]

lemma update_some_cases {α : Type} (f : Nat → Option α) (h x : Nat) (v w : α)
    (hx : Function.update f h (some v) x = some w) :
    (x = h ∧ w = v) ∨ (x ≠ h ∧ f x = some w) := by
  by_cases hxh : x = h
  · subst hxh
    rw [Function.update_same] at hx
    exact Or.inl ⟨rfl, (Option.some_inj.mp hx).symm⟩
  · rw [Function.update_noteq hxh] at hx
    exact Or.inr ⟨hxh, hx⟩

lemma dropHold_cases (hm : Nat → Option MLHandle) (s x : Nat) (w : MLHandle)
    (hx : dropHold hm s x = some w) :
    ∃ hs, hm x = some hs ∧
      ((hs.session = some s ∧ w = { hs with holdsToken := false }) ∨
        (hs.session ≠ some s ∧ w = hs)) := by
  unfold dropHold at hx
  cases hh : hm x with
  | none =>
    rw [hh] at hx
    exact Option.noConfusion hx
  | some hs =>
    rw [hh] at hx
    dsimp only at hx
    by_cases hses : hs.session = some s
    · rw [if_pos hses] at hx
      exact ⟨hs, rfl, Or.inl ⟨hses, (Option.some_inj.mp hx).symm⟩⟩
    · rw [if_neg hses] at hx
      exact ⟨hs, rfl, Or.inr ⟨hses, (Option.some_inj.mp hx).symm⟩⟩

lemma inv_step_access (h : Nat) (st st' : LMachine) (hinv : Inv st)
    (hstep : step (.access h) st = .ok st') : Inv st' := by
  obtain ⟨hU, hTF, hEL, hEO, hEE, hSF, hSS, hHC, hAH, hRP, hSD, hLS, hST⟩ := hinv
  dsimp only [step] at hstep
  cases hh : st.handles h with
  | some hs =>
    rw [hh] at hstep
    exact StepOut.noConfusion hstep
  | none =>
    rw [hh] at hstep
    dsimp only at hstep
    injection hstep with heq
    subst heq
    refine ⟨?_, ?_, ?_, ?_, ?_, ?_, ?_, ?_, ?_, ?_, ?_, ?_, ?_⟩
    · intro h1 h2 hs1 hs2 hh1 hh2 ht1 ht2
      rcases update_some_cases _ _ _ _ _ hh1 with ⟨rfl, rfl⟩ | ⟨hne1, hh1⟩
      · exact Bool.noConfusion ht1
      rcases update_some_cases _ _ _ _ _ hh2 with ⟨rfl, rfl⟩ | ⟨hne2, hh2⟩
      · exact Bool.noConfusion ht2
      exact hU h1 h2 hs1 hs2 hh1 hh2 ht1 ht2
    · intro htok h1 hs1 hh1
      rcases update_some_cases _ _ _ _ _ hh1 with ⟨rfl, rfl⟩ | ⟨hne1, hh1⟩
      · rfl
      · exact hTF htok h1 hs1 hh1
    · exact hEL
    · intro s hes h1 hs1 hh1 hsid
      rcases update_some_cases _ _ _ _ _ hh1 with ⟨rfl, rfl⟩ | ⟨hne1, hh1⟩
      · exact Option.noConfusion hsid
      · exact hEO s hes h1 hs1 hh1 hsid
    · intro s hes
      obtain ⟨h1, hs1, hh1, hsid⟩ := hEE s hes
      have hne1 : h1 ≠ h := by
        intro hcon
        rw [hcon, hh] at hh1
        exact Option.noConfusion hh1
      refine ⟨h1, hs1, ?_, hsid⟩
      show Function.update st.handles h
        (some ⟨none, false, .idle⟩) h1 = some hs1
      rw [Function.update_noteq hne1]
      exact hh1
    · intro h1 hs1 hh1 s hsid
      rcases update_some_cases _ _ _ _ _ hh1 with ⟨rfl, rfl⟩ | ⟨hne1, hh1⟩
      · exact Option.noConfusion hsid
      · exact hSF h1 hs1 hh1 s hsid
    · exact hSS
    · intro h1 hs1 hh1 ht1
      rcases update_some_cases _ _ _ _ _ hh1 with ⟨rfl, rfl⟩ | ⟨hne1, hh1⟩
      · exact Bool.noConfusion ht1
      · exact hHC h1 hs1 hh1 ht1
    · intro h1 hs1 hh1 hp1
      rcases update_some_cases _ _ _ _ _ hh1 with ⟨rfl, rfl⟩ | ⟨hne1, hh1⟩
      · exact MLPhase.noConfusion hp1
      · exact hAH h1 hs1 hh1 hp1
    · intro h1 hs1 s hh1 hp1
      rcases update_some_cases _ _ _ _ _ hh1 with ⟨rfl, rfl⟩ | ⟨hne1, hh1⟩
      · exact MLPhase.noConfusion hp1
      · exact hRP h1 hs1 s hh1 hp1
    · exact hSD
    · exact hLS
    · exact hST

lemma inv_step_lockTake (h : Nat) (st st' : LMachine) (hinv : Inv st)
    (hstep : step (.lockTake h) st = .ok st') : Inv st' := by
  obtain ⟨hU, hTF, hEL, hEO, hEE, hSF, hSS, hHC, hAH, hRP, hSD, hLS, hST⟩ := hinv
  dsimp only [step] at hstep
  cases hh : st.handles h with
  | none =>
    rw [hh] at hstep
    exact StepOut.noConfusion hstep
  | some hs =>
    rw [hh] at hstep
    dsimp only at hstep
    by_cases hph : hs.phase ≠ .idle
    · rw [if_pos hph] at hstep
      exact StepOut.noConfusion hstep
    rw [if_neg hph] at hstep
    cases hsid : hs.session with
    | some s0 =>
      rw [hsid] at hstep
      exact StepOut.noConfusion hstep
    | none =>
      rw [hsid] at hstep
      dsimp only at hstep
      by_cases htok : st.token
      · rw [if_pos htok] at hstep
        injection hstep with heq
        subst heq
        have htok' : st.token = true := htok
        have hent : st.entrySession = none := by
          cases hes : st.entrySession with
          | none => rfl
          | some s1 =>
            obtain ⟨ss, _, _, _, htf⟩ := hEL s1 hes
            rw [htok'] at htf
            exact Bool.noConfusion htf
        refine ⟨?_, ?_, ?_, ?_, ?_, ?_, ?_, ?_, ?_, ?_, ?_, ?_, ?_⟩
        · intro h1 h2 hs1 hs2 hh1 hh2 ht1 ht2
          rcases update_some_cases _ _ _ _ _ hh1 with ⟨rfl, rfl⟩ | ⟨hne1, hh1⟩
          · rcases update_some_cases _ _ _ _ _ hh2 with ⟨rfl, rfl⟩ | ⟨hne2, hh2⟩
            · rfl
            · rw [hTF htok' h2 hs2 hh2] at ht2
              exact Bool.noConfusion ht2
          · rw [hTF htok' h1 hs1 hh1] at ht1
            exact Bool.noConfusion ht1
        · intro htk
          exact absurd htk Bool.false_ne_true
        · intro s hes
          have hes' : st.entrySession = some s := hes
          rw [hent] at hes'
          exact Option.noConfusion hes'
        · intro s hes
          have hes' : st.entrySession = some s := hes
          rw [hent] at hes'
          exact Option.noConfusion hes'
        · intro s hes
          have hes' : st.entrySession = some s := hes
          rw [hent] at hes'
          exact Option.noConfusion hes'
        · intro h1 hs1 hh1 s hsid1
          rcases update_some_cases _ _ _ _ _ hh1 with ⟨rfl, rfl⟩ | ⟨hne1, hh1⟩
          · exact Option.noConfusion hsid1
          · exact hSF h1 hs1 hh1 s hsid1
        · exact hSS
        · intro h1 hs1 hh1 ht1
          rcases update_some_cases _ _ _ _ _ hh1 with ⟨rfl, rfl⟩ | ⟨hne1, hh1⟩
          · exact Or.inl rfl
          · rw [hTF htok' h1 hs1 hh1] at ht1
            exact Bool.noConfusion ht1
        · intro h1 hs1 hh1 hp1
          rcases update_some_cases _ _ _ _ _ hh1 with ⟨rfl, rfl⟩ | ⟨hne1, hh1⟩
          · exact ⟨rfl, rfl⟩
          · exact hAH h1 hs1 hh1 hp1
        · intro h1 hs1 s hh1 hp1
          rcases update_some_cases _ _ _ _ _ hh1 with ⟨rfl, rfl⟩ | ⟨hne1, hh1⟩
          · exact MLPhase.noConfusion hp1
          · exact hRP h1 hs1 s hh1 hp1
        · exact hSD
        · exact hLS
        · exact hST
      · rw [if_neg htok] at hstep
        exact StepOut.noConfusion hstep

lemma inv_step_markLocked (h : Nat) (st st' : LMachine) (hinv : Inv st)
    (hstep : step (.markLocked h) st = .ok st') : Inv st' := by
  obtain ⟨hU, hTF, hEL, hEO, hEE, hSF, hSS, hHC, hAH, hRP, hSD, hLS, hST⟩ := hinv
  dsimp only [step] at hstep
  cases hh : st.handles h with
  | none =>
    rw [hh] at hstep
    exact StepOut.noConfusion hstep
  | some hs =>
    rw [hh] at hstep
    dsimp only at hstep
    by_cases hph : hs.phase = .acquiring
    · rw [if_pos hph] at hstep
      injection hstep with heq
      subst heq
      obtain ⟨hhold, hsidnone⟩ := hAH h hs hh hph
      have htokf : st.token = false := by
        cases htk : st.token with
        | false => rfl
        | true =>
          rw [hTF htk h hs hh] at hhold
          exact Bool.noConfusion hhold
      have hent : st.entrySession = none := by
        cases hes : st.entrySession with
        | none => rfl
        | some s1 =>
          obtain ⟨h2, hs2, hh2, hsid2⟩ := hEE s1 hes
          obtain ⟨hhold2, hidle2⟩ := hEO s1 hes h2 hs2 hh2 hsid2
          have heq2 := hU h h2 hs hs2 hh hh2 hhold hhold2
          rw [← heq2, hh] at hh2
          have hv := Option.some_inj.mp hh2
          rw [← hv, hph] at hidle2
          exact MLPhase.noConfusion hidle2
      refine ⟨?_, ?_, ?_, ?_, ?_, ?_, ?_, ?_, ?_, ?_, ?_, ?_, ?_⟩
      · intro h1 h2 hs1 hs2 hh1 hh2 ht1 ht2
        rcases update_some_cases _ _ _ _ _ hh1 with ⟨he1, hv1⟩ | ⟨hne1, hh1'⟩
        · rcases update_some_cases _ _ _ _ _ hh2 with ⟨he2, hv2⟩ | ⟨hne2, hh2'⟩
          · rw [he1, he2]
          · rw [hv1] at ht1
            rw [he1]
            exact (hU h2 h hs2 hs hh2' hh ht2 hhold).symm
        · rcases update_some_cases _ _ _ _ _ hh2 with ⟨he2, hv2⟩ | ⟨hne2, hh2'⟩
          · rw [he2]
            exact hU h1 h hs1 hs hh1' hh ht1 hhold
          · exact hU h1 h2 hs1 hs2 hh1' hh2' ht1 ht2
      · intro htk
        have htk' : st.token = true := htk
        rw [htokf] at htk'
        exact Bool.noConfusion htk'
      · intro s hes
        have hes' : some st.nextSid = some s := hes
        injection hes' with hsn
        subst hsn
        exact ⟨newSession, Function.update_same _ _ _, rfl, rfl, htokf⟩
      · intro s hes h1 hs1 hh1 hsid1
        have hes' : some st.nextSid = some s := hes
        injection hes' with hsn
        subst hsn
        rcases update_some_cases _ _ _ _ _ hh1 with ⟨rfl, rfl⟩ | ⟨hne1, hh1⟩
        · exact ⟨hhold, rfl⟩
        · exact absurd (hSF h1 hs1 hh1 _ hsid1) (lt_irrefl _)
      · intro s hes
        have hes' : some st.nextSid = some s := hes
        injection hes' with hsn
        subst hsn
        exact ⟨h, _, Function.update_same _ _ _, rfl⟩
      · intro h1 hs1 hh1 s hsid1
        rcases update_some_cases _ _ _ _ _ hh1 with ⟨rfl, rfl⟩ | ⟨hne1, hh1⟩
        · have hsid1' : some st.nextSid = some s := hsid1
          injection hsid1' with hsn
          subst hsn
          exact Nat.lt_succ_self _
        · exact Nat.lt_succ_of_lt (hSF h1 hs1 hh1 s hsid1)
      · intro s hge
        have hge' : st.nextSid + 1 ≤ s := hge
        have hne : s ≠ st.nextSid := by omega
        show Function.update st.sessions st.nextSid (some newSession) s = none
        rw [Function.update_noteq hne]
        exact hSS s (by omega)
      · intro h1 hs1 hh1 ht1
        rcases update_some_cases _ _ _ _ _ hh1 with ⟨rfl, rfl⟩ | ⟨hne1, hh1⟩
        · exact Or.inr ⟨st.nextSid, rfl, rfl⟩
        · rcases hHC h1 hs1 hh1 ht1 with hacq | ⟨s0, _, hes0⟩
          · exact absurd (hU h1 h hs1 hs hh1 hh ht1 hhold) hne1
          · rw [hent] at hes0
            exact Option.noConfusion hes0
      · intro h1 hs1 hh1 hp1
        rcases update_some_cases _ _ _ _ _ hh1 with ⟨rfl, rfl⟩ | ⟨hne1, hh1⟩
        · exact MLPhase.noConfusion hp1
        · exact hAH h1 hs1 hh1 hp1
      · intro h1 hs1 s hh1 hp1
        rcases update_some_cases _ _ _ _ _ hh1 with ⟨rfl, rfl⟩ | ⟨hne1, hh1⟩
        · exact MLPhase.noConfusion hp1
        · obtain ⟨hsid1, _⟩ := hRP h1 hs1 s hh1 hp1
          refine ⟨hsid1, ?_⟩
          intro hes1
          have hes1' : some st.nextSid = some s := hes1
          injection hes1' with hsn
          have := hSF h1 hs1 hh1 s hsid1
          omega
      · intro s ss hss
        rcases update_some_cases _ _ _ _ _ hss with ⟨rfl, rfl⟩ | ⟨hne1, hss⟩
        · rfl
        · exact hSD s ss hss
      · intro s ss hss
        rcases update_some_cases _ _ _ _ _ hss with ⟨rfl, rfl⟩ | ⟨hne1, hss⟩
        · rfl
        · exact hLS s ss hss
      · intro s ss hss
        rcases update_some_cases _ _ _ _ _ hss with ⟨rfl, rfl⟩ | ⟨hne1, hss⟩
        · intro hfalse
          exact Bool.noConfusion hfalse
        · exact hST s ss hss
    · rw [if_neg hph] at hstep
      exact StepOut.noConfusion hstep

lemma inv_step_unlockEntry (h : Nat) (st st' : LMachine) (hinv : Inv st)
    (hstep : step (.unlockEntry h) st = .ok st') : Inv st' := by
  obtain ⟨hU, hTF, hEL, hEO, hEE, hSF, hSS, hHC, hAH, hRP, hSD, hLS, hST⟩ := hinv
  dsimp only [step] at hstep
  cases hh : st.handles h with
  | none =>
    rw [hh] at hstep
    exact StepOut.noConfusion hstep
  | some hs =>
    rw [hh] at hstep
    dsimp only at hstep
    by_cases hph : hs.phase ≠ .idle
    · rw [if_pos hph] at hstep
      exact StepOut.noConfusion hstep
    rw [if_neg hph] at hstep
    push_neg at hph
    cases hsid : hs.session with
    | none =>
      rw [hsid] at hstep
      exact StepOut.noConfusion hstep
    | some s =>
      rw [hsid] at hstep
      dsimp only at hstep
      by_cases hes : st.entrySession = some s
      · rw [if_pos hes] at hstep
        cases hss : st.sessions s with
        | none =>
          rw [hss] at hstep
          exact StepOut.noConfusion hstep
        | some ss =>
          rw [hss] at hstep
          dsimp only at hstep
          obtain ⟨ss', hss', hlk', _, htokf⟩ := hEL s hes
          rw [hss] at hss'
          have hsseq : ss = ss' := Option.some_inj.mp hss'
          obtain ⟨hhold, _⟩ := hEO s hes h hs hh hsid
          by_cases hlk : ss.isLocked
          · rw [if_pos hlk] at hstep
            by_cases htk : st.token
            · rw [if_pos htk] at hstep
              exact StepOut.noConfusion hstep
            · rw [if_neg htk] at hstep
              injection hstep with heq
              subst heq
              refine ⟨?_, ?_, ?_, ?_, ?_, ?_, ?_, ?_, ?_, ?_, ?_, ?_, ?_⟩
              · intro h1 h2 hs1 hs2 hh1 hh2 ht1 ht2
                rcases update_some_cases _ _ _ _ _ hh1 with ⟨he1, hv1⟩ | ⟨hne1, hh1'⟩
                · rw [hv1] at ht1
                  exact Bool.noConfusion ht1
                · exact absurd (hU h1 h hs1 hs hh1' hh ht1 hhold) hne1
              · intro _ h1 hs1 hh1
                rcases update_some_cases _ _ _ _ _ hh1 with ⟨he1, hv1⟩ | ⟨hne1, hh1'⟩
                · rw [hv1]
                · cases hb : hs1.holdsToken with
                  | false => rfl
                  | true => exact absurd (hU h1 h hs1 hs hh1' hh hb hhold) hne1
              · intro s1 hes1
                have hes1' : (none : Option Nat) = some s1 := hes1
                exact Option.noConfusion hes1'
              · intro s1 hes1
                have hes1' : (none : Option Nat) = some s1 := hes1
                exact Option.noConfusion hes1'
              · intro s1 hes1
                have hes1' : (none : Option Nat) = some s1 := hes1
                exact Option.noConfusion hes1'
              · intro h1 hs1 hh1 s1 hsid1
                rcases update_some_cases _ _ _ _ _ hh1 with ⟨he1, hv1⟩ | ⟨hne1, hh1'⟩
                · rw [hv1] at hsid1
                  have hsid1' : some s = some s1 := hsid1
                  injection hsid1' with hs1eq
                  subst hs1eq
                  exact hSF h hs hh s hsid
                · exact hSF h1 hs1 hh1' s1 hsid1
              · exact hSS
              · intro h1 hs1 hh1 ht1
                rcases update_some_cases _ _ _ _ _ hh1 with ⟨he1, hv1⟩ | ⟨hne1, hh1'⟩
                · rw [hv1] at ht1
                  exact Bool.noConfusion ht1
                · exact absurd (hU h1 h hs1 hs hh1' hh ht1 hhold) hne1
              · intro h1 hs1 hh1 hp1
                rcases update_some_cases _ _ _ _ _ hh1 with ⟨he1, hv1⟩ | ⟨hne1, hh1'⟩
                · rw [hv1] at hp1
                  exact MLPhase.noConfusion hp1
                · exact hAH h1 hs1 hh1' hp1
              · intro h1 hs1 s1 hh1 hp1
                rcases update_some_cases _ _ _ _ _ hh1 with ⟨he1, hv1⟩ | ⟨hne1, hh1'⟩
                · rw [hv1] at hp1
                  have hp1' : MLPhase.releasing s = MLPhase.releasing s1 := hp1
                  injection hp1' with hs1eq
                  subst hs1eq
                  rw [hv1]
                  refine ⟨rfl, ?_⟩
                  intro hcon
                  have hcon' : (none : Option Nat) = some s := hcon
                  exact Option.noConfusion hcon'
                · obtain ⟨ha, _⟩ := hRP h1 hs1 s1 hh1' hp1
                  refine ⟨ha, ?_⟩
                  intro hcon
                  have hcon' : (none : Option Nat) = some s1 := hcon
                  exact Option.noConfusion hcon'
              · exact hSD
              · exact hLS
              · exact hST
          · exfalso
            rw [← hsseq] at hlk'
            exact hlk hlk'
      · rw [if_neg hes] at hstep
        injection hstep with heq
        subst heq
        have hnh : hs.holdsToken = false := by
          cases hb : hs.holdsToken with
          | false => rfl
          | true =>
            rcases hHC h hs hh hb with hacq | ⟨s0, hs0, hes0⟩
            · rw [hph] at hacq
              exact MLPhase.noConfusion hacq
            · rw [hsid] at hs0
              injection hs0 with hs0eq
              rw [← hs0eq] at hes0
              exact absurd hes0 hes
        refine ⟨?_, ?_, ?_, ?_, ?_, ?_, ?_, ?_, ?_, ?_, ?_, ?_, ?_⟩
        · intro h1 h2 hs1 hs2 hh1 hh2 ht1 ht2
          rcases update_some_cases _ _ _ _ _ hh1 with ⟨he1, hv1⟩ | ⟨hne1, hh1'⟩
          · rw [hv1] at ht1
            have ht1' : hs.holdsToken = true := ht1
            rw [hnh] at ht1'
            exact Bool.noConfusion ht1'
          · rcases update_some_cases _ _ _ _ _ hh2 with ⟨he2, hv2⟩ | ⟨hne2, hh2'⟩
            · rw [hv2] at ht2
              have ht2' : hs.holdsToken = true := ht2
              rw [hnh] at ht2'
              exact Bool.noConfusion ht2'
            · exact hU h1 h2 hs1 hs2 hh1' hh2' ht1 ht2
        · intro htk h1 hs1 hh1
          rcases update_some_cases _ _ _ _ _ hh1 with ⟨he1, hv1⟩ | ⟨hne1, hh1'⟩
          · rw [hv1]
            exact hnh
          · exact hTF htk h1 hs1 hh1'
        · intro s1 hes1
          exact hEL s1 hes1
        · intro s1 hes1 h1 hs1 hh1 hsid1
          rcases update_some_cases _ _ _ _ _ hh1 with ⟨he1, hv1⟩ | ⟨hne1, hh1'⟩
          · exfalso
            rw [hv1] at hsid1
            have hsid1' : some s = some s1 := hsid1
            injection hsid1' with hs1eq
            subst hs1eq
            exact hes hes1
          · exact hEO s1 hes1 h1 hs1 hh1' hsid1
        · intro s1 hes1
          obtain ⟨h2, hs2, hh2, hsid2⟩ := hEE s1 hes1
          by_cases hh2h : h2 = h
          · exfalso
            rw [hh2h, hh] at hh2
            have hv := Option.some_inj.mp hh2
            rw [← hv, hsid] at hsid2
            injection hsid2 with hs1eq
            subst hs1eq
            exact hes hes1
          · refine ⟨h2, hs2, ?_, hsid2⟩
            show Function.update st.handles h _ h2 = some hs2
            rw [Function.update_noteq hh2h]
            exact hh2
        · intro h1 hs1 hh1 s1 hsid1
          rcases update_some_cases _ _ _ _ _ hh1 with ⟨he1, hv1⟩ | ⟨hne1, hh1'⟩
          · rw [hv1] at hsid1
            have hsid1' : some s = some s1 := hsid1
            injection hsid1' with hs1eq
            subst hs1eq
            exact hSF h hs hh s hsid
          · exact hSF h1 hs1 hh1' s1 hsid1
        · exact hSS
        · intro h1 hs1 hh1 ht1
          rcases update_some_cases _ _ _ _ _ hh1 with ⟨he1, hv1⟩ | ⟨hne1, hh1'⟩
          · rw [hv1] at ht1
            have ht1' : hs.holdsToken = true := ht1
            rw [hnh] at ht1'
            exact Bool.noConfusion ht1'
          · exact hHC h1 hs1 hh1' ht1
        · intro h1 hs1 hh1 hp1
          rcases update_some_cases _ _ _ _ _ hh1 with ⟨he1, hv1⟩ | ⟨hne1, hh1'⟩
          · rw [hv1] at hp1
            exact MLPhase.noConfusion hp1
          · exact hAH h1 hs1 hh1' hp1
        · intro h1 hs1 s1 hh1 hp1
          rcases update_some_cases _ _ _ _ _ hh1 with ⟨he1, hv1⟩ | ⟨hne1, hh1'⟩
          · rw [hv1] at hp1
            have hp1' : MLPhase.releasing s = MLPhase.releasing s1 := hp1
            injection hp1' with hs1eq
            subst hs1eq
            rw [hv1]
            exact ⟨rfl, hes⟩
          · exact hRP h1 hs1 s1 hh1' hp1
        · exact hSD
        · exact hLS
        · exact hST

lemma inv_step_unlockSignal (h : Nat) (st st' : LMachine) (hinv : Inv st)
    (hstep : step (.unlockSignal h) st = .ok st') : Inv st' := by
  obtain ⟨hU, hTF, hEL, hEO, hEE, hSF, hSS, hHC, hAH, hRP, hSD, hLS, hST⟩ := hinv
  dsimp only [step] at hstep
  cases hh : st.handles h with
  | none =>
    rw [hh] at hstep
    exact StepOut.noConfusion hstep
  | some hs =>
    rw [hh] at hstep
    dsimp only at hstep
    cases hph : hs.phase with
    | idle =>
      rw [hph] at hstep
      exact StepOut.noConfusion hstep
    | acquiring =>
      rw [hph] at hstep
      exact StepOut.noConfusion hstep
    | releasing s =>
      rw [hph] at hstep
      dsimp only at hstep
      cases hss : st.sessions s with
      | none =>
        rw [hss] at hstep
        exact StepOut.noConfusion hstep
      | some ss =>
        rw [hss] at hstep
        dsimp only at hstep
        injection hstep with heq
        subst heq
        obtain ⟨ha, hrpne⟩ := hRP h hs s hh hph
        have hnh : hs.holdsToken = false := by
          cases hb : hs.holdsToken with
          | false => rfl
          | true =>
            rcases hHC h hs hh hb with hacq | ⟨s0, hs0, hes0⟩
            · rw [hph] at hacq
              exact MLPhase.noConfusion hacq
            · rw [ha] at hs0
              injection hs0 with hs0eq
              rw [← hs0eq] at hes0
              exact absurd hes0 hrpne
        have hslt : s < st.nextSid := by
          by_contra hcon
          push_neg at hcon
          rw [hSS s hcon] at hss
          exact Option.noConfusion hss
        refine ⟨?_, ?_, ?_, ?_, ?_, ?_, ?_, ?_, ?_, ?_, ?_, ?_, ?_⟩
        · intro h1 h2 hs1 hs2 hh1 hh2 ht1 ht2
          rcases update_some_cases _ _ _ _ _ hh1 with ⟨he1, hv1⟩ | ⟨hne1, hh1'⟩
          · rw [hv1] at ht1
            have ht1' : hs.holdsToken = true := ht1
            rw [hnh] at ht1'
            exact Bool.noConfusion ht1'
          · rcases update_some_cases _ _ _ _ _ hh2 with ⟨he2, hv2⟩ | ⟨hne2, hh2'⟩
            · rw [hv2] at ht2
              have ht2' : hs.holdsToken = true := ht2
              rw [hnh] at ht2'
              exact Bool.noConfusion ht2'
            · exact hU h1 h2 hs1 hs2 hh1' hh2' ht1 ht2
        · intro htk h1 hs1 hh1
          rcases update_some_cases _ _ _ _ _ hh1 with ⟨he1, hv1⟩ | ⟨hne1, hh1'⟩
          · rw [hv1]
            exact hnh
          · exact hTF htk h1 hs1 hh1'
        · intro s1 hes1
          obtain ⟨ss1, hss1, hp1, hp2, hp3⟩ := hEL s1 hes1
          have hs1ne : s1 ≠ s := by
            intro hcon
            rw [hcon] at hes1
            exact absurd hes1 hrpne
          refine ⟨ss1, ?_, hp1, hp2, hp3⟩
          show Function.update st.sessions s _ s1 = some ss1
          rw [Function.update_noteq hs1ne]
          exact hss1
        · intro s1 hes1 h1 hs1 hh1 hsid1
          rcases update_some_cases _ _ _ _ _ hh1 with ⟨he1, hv1⟩ | ⟨hne1, hh1'⟩
          · exfalso
            rw [hv1] at hsid1
            have hsid1' : hs.session = some s1 := hsid1
            rw [ha] at hsid1'
            injection hsid1' with hs1eq
            rw [← hs1eq] at hes1
            exact absurd hes1 hrpne
          · exact hEO s1 hes1 h1 hs1 hh1' hsid1
        · intro s1 hes1
          obtain ⟨h2, hs2, hh2, hsid2⟩ := hEE s1 hes1
          by_cases hh2h : h2 = h
          · exfalso
            rw [hh2h, hh] at hh2
            have hv := Option.some_inj.mp hh2
            rw [← hv, ha] at hsid2
            injection hsid2 with hs1eq
            rw [← hs1eq] at hes1
            exact absurd hes1 hrpne
          · refine ⟨h2, hs2, ?_, hsid2⟩
            show Function.update st.handles h _ h2 = some hs2
            rw [Function.update_noteq hh2h]
            exact hh2
        · intro h1 hs1 hh1 s1 hsid1
          rcases update_some_cases _ _ _ _ _ hh1 with ⟨he1, hv1⟩ | ⟨hne1, hh1'⟩
          · rw [hv1] at hsid1
            have hsid1' : hs.session = some s1 := hsid1
            exact hSF h hs hh s1 hsid1'
          · exact hSF h1 hs1 hh1' s1 hsid1
        · intro s1 hge
          have hge' : st.nextSid ≤ s1 := hge
          have hs1ne : s1 ≠ s := by omega
          show Function.update st.sessions s _ s1 = none
          rw [Function.update_noteq hs1ne]
          exact hSS s1 hge'
        · intro h1 hs1 hh1 ht1
          rcases update_some_cases _ _ _ _ _ hh1 with ⟨he1, hv1⟩ | ⟨hne1, hh1'⟩
          · rw [hv1] at ht1
            have ht1' : hs.holdsToken = true := ht1
            rw [hnh] at ht1'
            exact Bool.noConfusion ht1'
          · exact hHC h1 hs1 hh1' ht1
        · intro h1 hs1 hh1 hp1
          rcases update_some_cases _ _ _ _ _ hh1 with ⟨he1, hv1⟩ | ⟨hne1, hh1'⟩
          · rw [hv1] at hp1
            exact MLPhase.noConfusion hp1
          · exact hAH h1 hs1 hh1' hp1
        · intro h1 hs1 s1 hh1 hp1
          rcases update_some_cases _ _ _ _ _ hh1 with ⟨he1, hv1⟩ | ⟨hne1, hh1'⟩
          · rw [hv1] at hp1
            exact MLPhase.noConfusion hp1
          · exact hRP h1 hs1 s1 hh1' hp1
        · intro s1 ss1 hss1
          rcases update_some_cases _ _ _ _ _ hss1 with ⟨he1, hv1⟩ | ⟨hne1, hss1'⟩
          · rw [hv1]
            rfl
          · exact hSD s1 ss1 hss1'
        · intro s1 ss1 hss1
          rcases update_some_cases _ _ _ _ _ hss1 with ⟨he1, hv1⟩ | ⟨hne1, hss1'⟩
          · rw [hv1]
            exact hLS s ss hss
          · exact hLS s1 ss1 hss1'
        · intro s1 ss1 hss1
          rcases update_some_cases _ _ _ _ _ hss1 with ⟨he1, hv1⟩ | ⟨hne1, hss1'⟩
          · rw [hv1]
            exact hST s ss hss
          · exact hST s1 ss1 hss1'

lemma inv_step_forceRevoke (st st' : LMachine) (hinv : Inv st)
    (hstep : step .forceRevoke st = .ok st') : Inv st' := by
  obtain ⟨hU, hTF, hEL, hEO, hEE, hSF, hSS, hHC, hAH, hRP, hSD, hLS, hST⟩ := hinv
  dsimp only [step] at hstep
  cases hes : st.entrySession with
  | none =>
    rw [hes] at hstep
    exact StepOut.noConfusion hstep
  | some s =>
    rw [hes] at hstep
    dsimp only at hstep
    cases hss : st.sessions s with
    | none =>
      rw [hss] at hstep
      exact StepOut.noConfusion hstep
    | some ss =>
      rw [hss] at hstep
      dsimp only at hstep
      obtain ⟨ss', hss', hlk', _, htokf⟩ := hEL s hes
      rw [hss] at hss'
      have hsseq : ss = ss' := Option.some_inj.mp hss'
      obtain ⟨h0, hs0, hh0, hsid0⟩ := hEE s hes
      obtain ⟨hhold0, hidle0⟩ := hEO s hes h0 hs0 hh0 hsid0
      by_cases hlk : ss.isLocked
      · rw [if_pos hlk] at hstep
        by_cases htk : st.token
        · rw [if_pos htk] at hstep
          exact StepOut.noConfusion hstep
        · rw [if_neg htk] at hstep
          injection hstep with heq
          subst heq
          have hslt : s < st.nextSid := by
            by_contra hcon
            push_neg at hcon
            rw [hSS s hcon] at hss
            exact Option.noConfusion hss
          have hnone : ∀ x w, dropHold st.handles s x = some w → w.holdsToken = false := by
            intro x w hx
            obtain ⟨hsx, hhx, hcase⟩ := dropHold_cases _ _ _ _ hx
            rcases hcase with ⟨hsess, rfl⟩ | ⟨hne, rfl⟩
            · rfl
            · cases hb : w.holdsToken with
              | false => rfl
              | true =>
                rcases hHC x w hhx hb with hacq | ⟨s1, hs1, hes1⟩
                · obtain ⟨_, hsnone⟩ := hAH x w hhx hacq
                  have hxeq := hU x h0 w hs0 hhx hh0 hb hhold0
                  rw [hxeq, hh0] at hhx
                  have hv := Option.some_inj.mp hhx
                  rw [hv, hsnone] at hsid0
                  exact Option.noConfusion hsid0
                · rw [hes] at hes1
                  injection hes1 with hseq
                  rw [← hseq] at hs1
                  exact absurd hs1 hne
          refine ⟨?_, ?_, ?_, ?_, ?_, ?_, ?_, ?_, ?_, ?_, ?_, ?_, ?_⟩
          · intro h1 h2 hs1 hs2 hh1 hh2 ht1 ht2
            rw [hnone h1 hs1 hh1] at ht1
            exact Bool.noConfusion ht1
          · intro _ h1 hs1 hh1
            exact hnone h1 hs1 hh1
          · intro s1 hes1
            have hes1' : (none : Option Nat) = some s1 := hes1
            exact Option.noConfusion hes1'
          · intro s1 hes1
            have hes1' : (none : Option Nat) = some s1 := hes1
            exact Option.noConfusion hes1'
          · intro s1 hes1
            have hes1' : (none : Option Nat) = some s1 := hes1
            exact Option.noConfusion hes1'
          · intro h1 hs1 hh1 s1 hsid1
            obtain ⟨hsx, hhx, hcase⟩ := dropHold_cases _ _ _ _ hh1
            rcases hcase with ⟨hsess, rfl⟩ | ⟨hne, rfl⟩
            · have hsid1' : hsx.session = some s1 := hsid1
              exact hSF h1 hsx hhx s1 hsid1'
            · exact hSF h1 hs1 hhx s1 hsid1
          · intro s1 hge
            have hge' : st.nextSid ≤ s1 := hge
            have hs1ne : s1 ≠ s := by omega
            show Function.update st.sessions s _ s1 = none
            rw [Function.update_noteq hs1ne]
            exact hSS s1 hge'
          · intro h1 hs1 hh1 ht1
            rw [hnone h1 hs1 hh1] at ht1
            exact Bool.noConfusion ht1
          · intro h1 hs1 hh1 hp1
            obtain ⟨hsx, hhx, hcase⟩ := dropHold_cases _ _ _ _ hh1
            rcases hcase with ⟨hsess, rfl⟩ | ⟨hne, rfl⟩
            · have hp1' : hsx.phase = .acquiring := hp1
              obtain ⟨_, hsnone⟩ := hAH h1 hsx hhx hp1'
              rw [hsnone] at hsess
              exact Option.noConfusion hsess
            · obtain ⟨hb, _⟩ := hAH h1 hs1 hhx hp1
              rw [hnone h1 hs1 hh1] at hb
              exact Bool.noConfusion hb
          · intro h1 hs1 s1 hh1 hp1
            obtain ⟨hsx, hhx, hcase⟩ := dropHold_cases _ _ _ _ hh1
            rcases hcase with ⟨hsess, rfl⟩ | ⟨hne, rfl⟩
            · have hp1' : hsx.phase = .releasing s1 := hp1
              obtain ⟨hsd, _⟩ := hRP h1 hsx s1 hhx hp1'
              refine ⟨hsd, ?_⟩
              intro hcon
              have hcon' : (none : Option Nat) = some s1 := hcon
              exact Option.noConfusion hcon'
            · obtain ⟨hsd, _⟩ := hRP h1 hs1 s1 hhx hp1
              refine ⟨hsd, ?_⟩
              intro hcon
              have hcon' : (none : Option Nat) = some s1 := hcon
              exact Option.noConfusion hcon'
          · intro s1 ss1 hss1
            rcases update_some_cases _ _ _ _ _ hss1 with ⟨he1, hv1⟩ | ⟨hne1, hss1'⟩
            · rw [hv1]
              exact hSD s ss hss
            · exact hSD s1 ss1 hss1'
          · intro s1 ss1 hss1
            rcases update_some_cases _ _ _ _ _ hss1 with ⟨he1, hv1⟩ | ⟨hne1, hss1'⟩
            · rw [hv1]
              exact hLS s ss hss
            · exact hLS s1 ss1 hss1'
          · intro s1 ss1 hss1
            rcases update_some_cases _ _ _ _ _ hss1 with ⟨he1, hv1⟩ | ⟨hne1, hss1'⟩
            · rw [hv1]
              intro _
              rfl
            · exact hST s1 ss1 hss1'
      · exfalso
        rw [← hsseq] at hlk'
        exact hlk hlk'

lemma inv_step_forceSignal (s : Nat) (st st' : LMachine) (hinv : Inv st)
    (hstep : step (.forceSignal s) st = .ok st') : Inv st' := by
  obtain ⟨hU, hTF, hEL, hEO, hEE, hSF, hSS, hHC, hAH, hRP, hSD, hLS, hST⟩ := hinv
  dsimp only [step] at hstep
  cases hss : st.sessions s with
  | none =>
    rw [hss] at hstep
    exact StepOut.noConfusion hstep
  | some ss =>
    rw [hss] at hstep
    dsimp only at hstep
    by_cases hg : (ss.revokeStarted && !ss.revokeSignaled) = true
    · rw [if_pos hg] at hstep
      injection hstep with heq
      subst heq
      rw [Bool.and_eq_true, Bool.not_eq_true'] at hg
      obtain ⟨hrs, _⟩ := hg
      have hslt : s < st.nextSid := by
        by_contra hcon
        push_neg at hcon
        rw [hSS s hcon] at hss
        exact Option.noConfusion hss
      have hesne : st.entrySession ≠ some s := by
        intro hcon
        obtain ⟨ss', hss', _, hns', _⟩ := hEL s hcon
        rw [hss] at hss'
        have hsseq : ss = ss' := Option.some_inj.mp hss'
        rw [← hsseq] at hns'
        rw [hrs] at hns'
        exact Bool.noConfusion hns'
      refine ⟨?_, ?_, ?_, ?_, ?_, ?_, ?_, ?_, ?_, ?_, ?_, ?_, ?_⟩
      · exact hU
      · exact hTF
      · intro s1 hes1
        obtain ⟨ss1, hss1, hp1, hp2, hp3⟩ := hEL s1 hes1
        have hs1ne : s1 ≠ s := by
          intro hcon
          rw [hcon] at hes1
          exact hesne hes1
        refine ⟨ss1, ?_, hp1, hp2, hp3⟩
        show Function.update st.sessions s _ s1 = some ss1
        rw [Function.update_noteq hs1ne]
        exact hss1
      · exact hEO
      · exact hEE
      · exact hSF
      · intro s1 hge
        have hge' : st.nextSid ≤ s1 := hge
        have hs1ne : s1 ≠ s := by omega
        show Function.update st.sessions s _ s1 = none
        rw [Function.update_noteq hs1ne]
        exact hSS s1 hge'
      · exact hHC
      · exact hAH
      · exact hRP
      · intro s1 ss1 hss1
        rcases update_some_cases _ _ _ _ _ hss1 with ⟨he1, hv1⟩ | ⟨hne1, hss1'⟩
        · rw [hv1]
          simp
        · exact hSD s1 ss1 hss1'
      · intro s1 ss1 hss1
        rcases update_some_cases _ _ _ _ _ hss1 with ⟨he1, hv1⟩ | ⟨hne1, hss1'⟩
        · rw [hv1]
        · exact hLS s1 ss1 hss1'
      · intro s1 ss1 hss1
        rcases update_some_cases _ _ _ _ _ hss1 with ⟨he1, hv1⟩ | ⟨hne1, hss1'⟩
        · rw [hv1]
          intro _
          exact hrs
        · exact hST s1 ss1 hss1'
    · rw [if_neg hg] at hstep
      exact StepOut.noConfusion hstep

lemma inv_step (op : LMOp) (st st' : LMachine) (hinv : Inv st)
    (hstep : step op st = .ok st') : Inv st' := by
  cases op with
  | access h => exact inv_step_access h st st' hinv hstep
  | lockTake h => exact inv_step_lockTake h st st' hinv hstep
  | markLocked h => exact inv_step_markLocked h st st' hinv hstep
  | unlockEntry h => exact inv_step_unlockEntry h st st' hinv hstep
  | unlockSignal h => exact inv_step_unlockSignal h st st' hinv hstep
  | forceRevoke => exact inv_step_forceRevoke st st' hinv hstep
  | forceSignal s => exact inv_step_forceSignal s st st' hinv hstep

lemma reach_inv (st : LMachine) (hr : Reach st) : Inv st := by
  induction hr with
  | init => exact inv_init
  | next op st1 st2 _ hstep ih => exact inv_step op st1 st2 ih hstep

/-- Claim C1 as stated: at any instant, at most one `LockSession` has its
locked flag set. -/
def atMostOneLockedSession (st : LMachine) : Prop :=
  ∀ s1 s2 ss1 ss2, st.sessions s1 = some ss1 → st.sessions s2 = some ss2 →
    ss1.isLocked = true → ss2.isLocked = true → s1 = s2

/-- Interleaving exhibiting the revocation window: handle 0 locks the key,
`ForceUnlock` runs its critical section (returning the token and clearing
the entry) but its `session.forceUnlock()` has not yet executed, and
handle 1 acquires the freshly returned token. -/
def c1trace : List LMOp :=
  [.access 0, .lockTake 0, .markLocked 0, .forceRevoke, .access 1,
   .lockTake 1, .markLocked 1]

/-- Claim C1 counterexample: the claim "at most one LockSession is in the
locked state at any instant" is false. `ForceUnlock` clears the revoked
session's `isLocked` flag only in `session.forceUnlock()`, OUTSIDE the
entry's internal lock; between the mutex release and that call a new
session can be created and locked, so a reachable state has two sessions
with the locked flag set (both handles report `IsLocked() == true`). -/
theorem c1_counterexample_two_locked_sessions :
    Reach (runOps c1trace initLM)
    ∧ (runOps c1trace initLM).sessions 0 =
        some ⟨true, false, false, false, true, false⟩
    ∧ (runOps c1trace initLM).sessions 1 =
        some ⟨true, false, false, false, false, false⟩
    ∧ ¬atMostOneLockedSession (runOps c1trace initLM) := by
  refine ⟨reach_runOps c1trace initLM Reach.init, by rfl, by rfl, ?_⟩
  intro hmono
  have := hmono 0 1 _ _ (by rfl) (by rfl) rfl rfl
  exact absurd this (by decide)

/-- Claim C1 (amended): the underlying Mutex never has more than one holder
at any instant, under any interleaving of acquire, release and force-unlock
— token ownership is exclusive, and while the token is buffered nobody
holds it; moreover the entry's recorded session is always a live locked
session. The `isLocked` flags themselves may transiently be set on both a
revoked session and its successor (see the counterexample). -/
theorem c1_amended_token_exclusion (st : LMachine) (hr : Reach st) :
    (∀ h1 h2 hs1 hs2, st.handles h1 = some hs1 → st.handles h2 = some hs2 →
      hs1.holdsToken = true → hs2.holdsToken = true → h1 = h2)
    ∧ (st.token = true → ∀ h hs, st.handles h = some hs → hs.holdsToken = false)
    ∧ (∀ s, st.entrySession = some s →
        ∃ ss, st.sessions s = some ss ∧ ss.isLocked = true) := by
  have hinv := reach_inv st hr
  refine ⟨hinv.holderUnique, hinv.tokenFree, ?_⟩
  intro s hes
  obtain ⟨ss, hss, hlk, _, _⟩ := hinv.entryLive s hes
  exact ⟨ss, hss, hlk⟩

/-- Witness for the amended C1 at a concrete reachable state: after handle 0
locks the key, token ownership is exclusive there. -/
theorem c1_amended_token_exclusion_witness :
    ∃ ss, (runOps [LMOp.access 0, LMOp.lockTake 0, LMOp.markLocked 0] initLM).sessions 0 =
        some ss ∧ ss.isLocked = true := by
  have h := (c1_amended_token_exclusion
    (runOps [LMOp.access 0, LMOp.lockTake 0, LMOp.markLocked 0] initLM)
    (reach_runOps _ initLM Reach.init)).2.2
  exact h 0 (by rfl)

/-- Claim C2 as stated: exactly one of the Unlocked/LockLost signals fires
over a session's lifetime — in particular never both. -/
def exactlyOneEndSignal (st : LMachine) : Prop :=
  ∀ s ss, st.sessions s = some ss →
    ¬(ss.unlockedFired = true ∧ ss.lostFired = true)

/-- Handle 0 locks the key, the key is force-unlocked (LockLost and Done
fire), and the revoked holder then performs its mandatory `Unlock()`. -/
def c2trace : List LMOp :=
  [.access 0, .lockTake 0, .markLocked 0, .forceRevoke, .forceSignal 0,
   .unlockEntry 0, .unlockSignal 0]

/-- Claim C2 counterexample: after a forced revocation, the revoked
holder's mandatory `Unlock()` call still runs `session.unlock()`
unconditionally ("always signal unlock" in `doUnlock`), which closes the
Unlocked channel of a session whose LockLost channel is already closed: a
reachable state has a session with BOTH signals fired, so "exactly one of
Unlocked/LockLost fires, and Unlocked never fires for a revoked session
even after the mandatory Unlock" is false. -/
theorem c2_counterexample_both_signals :
    Reach (runOps c2trace initLM)
    ∧ (runOps c2trace initLM).sessions 0 =
        some ⟨false, true, true, true, true, true⟩
    ∧ ¬exactlyOneEndSignal (runOps c2trace initLM) := by
  refine ⟨reach_runOps c2trace initLM Reach.init, by rfl, ?_⟩
  intro hone
  exact hone 0 _ (by rfl) ⟨rfl, rfl⟩

/-- Claim C2 (amended): for every session, the Done signal has fired
exactly when at least one of Unlocked/LockLost has, and LockLost fires only
for sessions that were forcibly revoked. (A revoked session whose holder
performs the mandatory `Unlock()` fires both Unlocked and LockLost; Done
fires once, with the first of them.) -/
theorem c2_amended_done_pairing (st : LMachine) (hr : Reach st) :
    ∀ s ss, st.sessions s = some ss →
      ss.doneFired = (ss.unlockedFired || ss.lostFired)
      ∧ (ss.lostFired = true → ss.revokeStarted = true) := by
  have hinv := reach_inv st hr
  intro s ss hss
  refine ⟨hinv.sigDone s ss hss, ?_⟩
  intro hl
  have hsig := hinv.lostSignaled s ss hss
  rw [hl] at hsig
  exact hinv.signaledStarted s ss hss hsig.symm

/-- Witness for the amended C2 at the concrete revoke-then-unlock state:
Done has fired there, and it equals the disjunction of the two end
signals. -/
theorem c2_amended_done_pairing_witness :
    ∃ ss, (runOps c2trace initLM).sessions 0 = some ss
      ∧ ss.doneFired = (ss.unlockedFired || ss.lostFired)
      ∧ ss.doneFired = true := by
  obtain ⟨hd, _⟩ := c2_amended_done_pairing (runOps c2trace initLM)
    (reach_runOps c2trace initLM Reach.init) 0
    ⟨false, true, true, true, true, true⟩ (by rfl)
  exact ⟨⟨false, true, true, true, true, true⟩, by rfl, hd, rfl⟩

/-- Handle 0 locks the key and unlocks it again, completely and
explicitly. -/
def c9trace : List LMOp :=
  [.access 0, .lockTake 0, .markLocked 0, .unlockEntry 0, .unlockSignal 0]

/-- Claim C9 (code bug): after `Unlock()` has fully ended the handle's
session (the entry is released — the token is back and the entry's session
pointer cleared), a second `Lock()` on the same handle nevertheless fails
fatally with "lock still has an active lock session": `doUnlock` never
resets `ml.session`, so `checkNoActiveLockSession` panics on every
re-acquire, contradicting the claim, the panic message's own wording, and
the session lifecycle ("ends on Unlock"). -/
theorem c9_relock_after_unlock_panics :
    step (.lockTake 0) (runOps c9trace initLM) =
      .fatal "lock still has an active lock session, missing call to Unlock to finish the session"
    ∧ (runOps c9trace initLM).token = true
    ∧ (runOps c9trace initLM).entrySession = none
    ∧ (runOps c9trace initLM).handles 0 = some ⟨some 0, false, .idle⟩
    ∧ (runOps c9trace initLM).sessions 0 =
        some ⟨false, true, false, true, false, false⟩ := by
  refine ⟨by rfl, by rfl, by rfl, by rfl, by rfl⟩

end GoConcert
